import Mathlib

/-!
# Spy Cat Agency — verification of the rule engine

Shallow embedding of `backend/app/crud.py`, `backend/app/models.py`,
`backend/app/dependencies.py` and the thin router layer
(`backend/app/routers/cats.py`, `backend/app/routers/missions.py`).

The Python store is three insertion-ordered dicts keyed by `int` plus three
counters; we model each dict as an association list `List (Int × _)` where
insertion appends, in-place update rewrites the entry with the matching key,
and `pop` drops it.  Pydantic objects are plain records.  A crucial point of
the source is aliasing: `fake_targets_db[t.id]` and the elements of
`mission.targets` are the same Python objects, and two Pydantic objects
compare equal iff all fields (including `id`) agree; since ids are unique
keys, holding the list of target *ids* inside `Mission` and resolving them
through the targets table is an exact model of what the source observes.
`get_mission` re-resolves (and stores back) the mission's target list,
dropping ids that no longer resolve — we model that store-back mutation too,
since it happens even on request paths that subsequently raise.

`HTTPException(status_code=...)` becomes `Except.error` carrying the status
code; every operation returns its result together with the post-state.
`salary` is a Python float on which no operation ever computes (it is only
stored, compared for nothing, and echoed back), so we carry it as `Rat`, any
carrier with decidable equality being adequate.
-/

namespace SpyCat

/-- HTTP error outcomes the source raises (`fastapi.status` constants). -/
inductive ErrCode where
  | notFound404
  | conflict409
  | badRequest400
  | unavailable503
  | badGateway502
  | internal500
deriving DecidableEq, Repr

/-- `models.Target` (the stored entity, Pydantic `Target`). -/
structure Target where
  id : Int
  name : String
  country : String
  notes : Option String
  is_complete : Bool
deriving DecidableEq, Repr

/-- `models.Mission` (stored entity).  The source's `targets : List[Target]`
holds the very objects stored in `fake_targets_db`; we keep their ids and
resolve through the targets table (see the header comment). -/
structure Mission where
  id : Int
  targetIds : List Int
  is_complete : Bool
  cat_id : Option Int
deriving DecidableEq, Repr

/-- `models.Cat` (stored entity). -/
structure Cat where
  id : Int
  name : String
  years_of_experience : Int
  breed : String
  salary : Rat
  mission_id : Option Int
deriving DecidableEq, Repr

/-- `models.TargetCreate` payload.  Pydantic accepts an `is_complete` field
(default `False`); `create_mission` ignores it. -/
structure TargetCreate where
  name : String
  country : String
  notes : Option String
  is_complete : Bool
deriving DecidableEq, Repr

/-- `models.MissionCreate` payload; the `is_complete` field (default `False`)
is likewise accepted by the shape and ignored on creation. -/
structure MissionCreate where
  is_complete : Bool
  targets : List TargetCreate
deriving DecidableEq, Repr

/-- `models.CatCreate` payload. -/
structure CatCreate where
  name : String
  years_of_experience : Int
  breed : String
  salary : Rat
deriving DecidableEq, Repr

/-- The module-level mutable state of `crud.py`: the three dicts and the three
id counters. -/
structure Store where
  cats : List (Int × Cat)
  missions : List (Int × Mission)
  targets : List (Int × Target)
  next_cat_id : Int
  next_mission_id : Int
  next_target_id : Int
deriving DecidableEq, Repr

/-- `reset_db_state` / process start: all dicts empty, counters at 1. -/
def initStore : Store := ⟨[], [], [], 1, 1, 1⟩

/-! ## Association-list primitives (Python dict operations) -/

/-- `db.get(k)` — first entry with the key (keys are unique in any state the
program produces). -/
def lookupA {α : Type} : List (Int × α) → Int → Option α
  | [], _ => none
  | (k, v) :: rest, key => if k = key then some v else lookupA rest key

/-- `db[k] = v` for a key already present: rewrite the entry in place. -/
def updateA {α : Type} (l : List (Int × α)) (key : Int) (v : α) : List (Int × α) :=
  l.map fun kv => if kv.1 = key then (key, v) else kv

/-- `db.pop(k, None)`'s effect on the dict: drop the entry with the key. -/
def eraseA {α : Type} (l : List (Int × α)) (key : Int) : List (Int × α) :=
  l.filter fun kv => kv.1 ≠ key

/-! ## Cat CRUD (`crud.py`) -/

/-- `create_cat`: 409 when some stored cat has the same (name, breed) pair,
otherwise store a new cat with the next id and no mission link. -/
def create_cat (cat_in : CatCreate) (s : Store) : Except ErrCode Cat × Store :=
  if s.cats.any (fun kc => kc.2.name == cat_in.name && kc.2.breed == cat_in.breed) then
    (Except.error ErrCode.conflict409, s)
  else
    let db_cat : Cat :=
      { id := s.next_cat_id
        name := cat_in.name
        years_of_experience := cat_in.years_of_experience
        breed := cat_in.breed
        salary := cat_in.salary
        mission_id := none }
    (Except.ok db_cat,
      { s with cats := s.cats ++ [(s.next_cat_id, db_cat)]
               next_cat_id := s.next_cat_id + 1 })

/-- `get_cat` (pure read). -/
def get_cat (cat_id : Int) (s : Store) : Option Cat :=
  lookupA s.cats cat_id

/-- `update_cat_salary`: `None` when absent, else overwrite the salary. -/
def update_cat_salary (cat_id : Int) (salary : Rat) (s : Store) :
    Option Cat × Store :=
  match lookupA s.cats cat_id with
  | none => (none, s)
  | some c =>
    let c' := { c with salary := salary }
    (some c', { s with cats := updateA s.cats cat_id c' })

/-! ## Mission / Target CRUD -/

/-- The allocation loop of `create_mission`: for each payload target, store a
fresh `Target` with `is_complete=False` under the next target id. -/
def allocTargets : List TargetCreate → Store → List Int × Store
  | [], s => ([], s)
  | t :: rest, s =>
    let tid := s.next_target_id
    let db_target : Target :=
      { id := tid, name := t.name, country := t.country
        notes := t.notes, is_complete := false }
    let s1 := { s with targets := s.targets ++ [(tid, db_target)]
                       next_target_id := tid + 1 }
    let (ids, s2) := allocTargets rest s1
    (tid :: ids, s2)

/-- `create_mission`: allocate every target, then store the mission with
`is_complete=False` and no cat link (payload completion flags are ignored). -/
def create_mission (mission_in : MissionCreate) (s : Store) : Mission × Store :=
  let (tids, s1) := allocTargets mission_in.targets s
  let m : Mission :=
    { id := s1.next_mission_id, targetIds := tids
      is_complete := false, cat_id := none }
  (m, { s1 with missions := s1.missions ++ [(s1.next_mission_id, m)]
                next_mission_id := s1.next_mission_id + 1 })

/-- The re-resolution step of `get_mission`: keep exactly the target ids that
still resolve in the targets table (fetching each fresh object). -/
def refreshTargets (ts : List (Int × Target)) (ids : List Int) : List Int :=
  ids.filter fun tid => (lookupA ts tid).isSome

/-- `get_mission`: `None` when absent; otherwise re-resolve the mission's
target list against the targets table and *store the mission back* with the
re-resolved list (the source mutates the stored object), returning it. -/
def get_mission (mission_id : Int) (s : Store) : Option Mission × Store :=
  match lookupA s.missions mission_id with
  | none => (none, s)
  | some m =>
    let m' := { m with targetIds := refreshTargets s.targets m.targetIds }
    (some m', { s with missions := updateA s.missions mission_id m' })

/-- `delete_cat`: when the cat exists and carries a mission link to an
existing mission that is not complete, raise 400; otherwise `pop` the cat
(returning `none` when it was absent — the router turns that into 404). -/
def delete_cat (cat_id : Int) (s : Store) : Except ErrCode (Option Cat) × Store :=
  let checked : Option ErrCode × Store :=
    match lookupA s.cats cat_id with
    | none => (none, s)
    | some c =>
      match c.mission_id with
      | none => (none, s)
      | some mid =>
        match get_mission mid s with
        | (some m, s1) =>
          if m.is_complete then (none, s1) else (some ErrCode.badRequest400, s1)
        | (none, s1) => (none, s1)
  match checked with
  | (some e, s1) => (Except.error e, s1)
  | (none, s1) =>
    (Except.ok (lookupA s1.cats cat_id), { s1 with cats := eraseA s1.cats cat_id })

/-- The last two lines of `assign_cat_to_mission`: write both sides of the
Cat↔Mission link (`mission.cat_id = cat_id; cat.mission_id = mission_id`).
`m` and `c` are the objects fetched by the earlier lookups; their stored
values are unchanged at this point (the possible second `get_mission` only
re-resolves target ids, which leaves the first mission's value intact). -/
def setLinks (mission_id cat_id : Int) (m : Mission) (c : Cat) (s : Store) :
    Except ErrCode Mission × Store :=
  let m' := { m with cat_id := some cat_id }
  let c' := { c with mission_id := some mission_id }
  (Except.ok m',
    { s with missions := updateA s.missions mission_id m'
             cats := updateA s.cats cat_id c' })

/-- `assign_cat_to_mission`: 404 when mission or cat is absent; 409 when the
mission already has a cat link; 409 when the cat's current mission link
resolves to a mission that is not complete; otherwise set both sides of the
link.  (When the cat's old link is dangling or points to a complete mission,
assignment proceeds.) -/
def assign_cat_to_mission (mission_id cat_id : Int) (s : Store) :
    Except ErrCode Mission × Store :=
  match get_mission mission_id s with
  | (none, s1) => (Except.error ErrCode.notFound404, s1)
  | (some m, s1) =>
    match lookupA s1.cats cat_id with
    | none => (Except.error ErrCode.notFound404, s1)
    | some c =>
      if m.cat_id.isSome then (Except.error ErrCode.conflict409, s1)
      else
        match c.mission_id with
        | none => setLinks mission_id cat_id m c s1
        | some mid2 =>
          match get_mission mid2 s1 with
          | (some am, s2) =>
            if am.is_complete then setLinks mission_id cat_id m c s2
            else (Except.error ErrCode.conflict409, s2)
          | (none, s2) => setLinks mission_id cat_id m c s2

/-- `update_target_notes`: 404 when the mission is absent; 400 when the
mission is complete; 404 when the target id does not resolve or is not one of
the mission's targets; 400 when the target is complete; otherwise replace the
notes text outright. -/
def update_target_notes (mission_id target_id : Int) (notes : String) (s : Store) :
    Except ErrCode Target × Store :=
  match get_mission mission_id s with
  | (none, s1) => (Except.error ErrCode.notFound404, s1)
  | (some m, s1) =>
    if m.is_complete then (Except.error ErrCode.badRequest400, s1)
    else
      match lookupA s1.targets target_id with
      | none => (Except.error ErrCode.notFound404, s1)
      | some t =>
        if m.targetIds.contains target_id then
          if t.is_complete then (Except.error ErrCode.badRequest400, s1)
          else
            let t' := { t with notes := some notes }
            (Except.ok t', { s1 with targets := updateA s1.targets target_id t' })
        else (Except.error ErrCode.notFound404, s1)

/-- The completion flag `mark_target_complete` reads for the target id `tid`
of a (re-resolved) mission target list; an id that does not resolve simply
does not occur in the iterated list, so it contributes `true`. -/
def flagOf (ts : List (Int × Target)) (tid : Int) : Bool :=
  match lookupA ts tid with
  | some t => t.is_complete
  | none => true

/-- The completion recomputation of `mark_target_complete`: the conjunction of
the completion flags of the mission's (re-resolved) targets. -/
def conjTargets (ts : List (Int × Target)) (ids : List Int) : Bool :=
  ids.all (flagOf ts)

/-- `mark_target_complete`: 404 when the mission is absent; 400 when the
mission is already complete; 404 when the target does not resolve or is not
the mission's; already-complete target returns as-is.  Otherwise set the
target complete; if now every target of the mission is complete, set the
mission complete and — when `mission.cat_id` is truthy (Python: not `None`
and not `0`) and names a stored cat — null that cat's mission link. -/
def mark_target_complete (mission_id target_id : Int) (s : Store) :
    Except ErrCode Target × Store :=
  match get_mission mission_id s with
  | (none, s1) => (Except.error ErrCode.notFound404, s1)
  | (some m, s1) =>
    if m.is_complete then (Except.error ErrCode.badRequest400, s1)
    else
      match lookupA s1.targets target_id with
      | none => (Except.error ErrCode.notFound404, s1)
      | some t =>
        if m.targetIds.contains target_id then
          if t.is_complete then (Except.ok t, s1)
          else
            let t' := { t with is_complete := true }
            let s2 := { s1 with targets := updateA s1.targets target_id t' }
            if conjTargets s2.targets m.targetIds then
              let m' := { m with is_complete := true }
              let s3 := { s2 with missions := updateA s2.missions mission_id m' }
              let s4 :=
                match m.cat_id with
                | none => s3
                | some cid =>
                  if cid = 0 then s3
                  else
                    match lookupA s3.cats cid with
                    | none => s3
                    | some c =>
                      { s3 with
                          cats := updateA s3.cats cid { c with mission_id := none } }
              (Except.ok t', s4)
            else (Except.ok t', s2)
        else (Except.error ErrCode.notFound404, s1)

/-- `delete_mission`: `None` when absent (the router turns that into 404);
400 when the mission has a cat link, that cat exists, its mission link still
points back here and the mission is not complete; otherwise pop every owned
target and then the mission itself. -/
def delete_mission (mission_id : Int) (s : Store) :
    Except ErrCode (Option Mission) × Store :=
  match get_mission mission_id s with
  | (none, s1) => (Except.ok none, s1)
  | (some m, s1) =>
    let blocked : Bool :=
      match m.cat_id with
      | none => false
      | some cid =>
        match lookupA s1.cats cid with
        | none => false
        | some c => c.mission_id == some mission_id && !m.is_complete
    if blocked then (Except.error ErrCode.badRequest400, s1)
    else
      let s2 := { s1 with targets := m.targetIds.foldl (fun ts tid => eraseA ts tid) s1.targets }
      (Except.ok (lookupA s2.missions mission_id),
        { s2 with missions := eraseA s2.missions mission_id })

/-- The per-mission re-resolution `get_missions` performs on each listed
mission (the same store-back as `get_mission`). -/
def refreshMission (s : Store) (mission_id : Int) : Store :=
  match lookupA s.missions mission_id with
  | none => s
  | some m =>
    let m' := { m with targetIds := refreshTargets s.targets m.targetIds }
    { s with missions := updateA s.missions mission_id m' }

/-- `get_missions` for non-negative `skip`/`limit` (their only values in
scope): slice the missions in insertion order, re-resolve each listed
mission's targets in place, and return the refreshed objects. -/
def get_missions (skip limit : Nat) (s : Store) : List Mission × Store :=
  let mids := (((s.missions.map Prod.fst).drop skip).take limit)
  let s' := mids.foldl refreshMission s
  (mids.filterMap (fun mid => lookupA s'.missions mid), s')

/-! ## Router layer -/

/-- `routers/cats.py: delete_spy_cat`: a `None` from `crud.delete_cat` becomes
404, business errors pass through, success returns 204 (unit). -/
def delete_spy_cat (cat_id : Int) (s : Store) : Except ErrCode Unit × Store :=
  match delete_cat cat_id s with
  | (Except.error e, s') => (Except.error e, s')
  | (Except.ok none, s') => (Except.error ErrCode.notFound404, s')
  | (Except.ok (some _), s') => (Except.ok (), s')

/-- `routers/missions.py: delete_a_mission`: `None` from `crud.delete_mission`
becomes 404. -/
def delete_a_mission (mission_id : Int) (s : Store) : Except ErrCode Unit × Store :=
  match delete_mission mission_id s with
  | (Except.error e, s') => (Except.error e, s')
  | (Except.ok none, s') => (Except.error ErrCode.notFound404, s')
  | (Except.ok (some _), s') => (Except.ok (), s')

/-! ## Breed validation (`dependencies.py`) -/

/-- Outcome of the external fetch of TheCatAPI's breed list: the decoded
breed names on success, or the kind of `httpx` failure. -/
inductive FetchResult where
  | ok (breedNames : List String)
  | requestError
  | httpStatusError
  | otherError
deriving DecidableEq, Repr

/-- `validate_cat_breed_from_payload`, as a function of the fetch outcome.
A successful fetch accepts iff some listed breed name equals the payload's
breed case-insensitively.  Note a Python subtlety the model preserves: the
`HTTPException(400)` raised for an unknown breed is itself caught by the
trailing `except Exception` handler inside the same `try`, which re-raises it
as a 500 — so an unknown breed surfaces as 500, not 400.  `RequestError`
gives 503, `HTTPStatusError` 502, any other failure 500. -/
def validate_cat_breed_from_payload (fetch : FetchResult) (cat_in : CatCreate) :
    Except ErrCode CatCreate :=
  match fetch with
  | FetchResult.ok breedNames =>
    if breedNames.any (fun b => b.toLower == cat_in.breed.toLower) then
      Except.ok cat_in
    else Except.error ErrCode.internal500
  | FetchResult.requestError => Except.error ErrCode.unavailable503
  | FetchResult.httpStatusError => Except.error ErrCode.badGateway502
  | FetchResult.otherError => Except.error ErrCode.internal500

/-- `routers/cats.py: create_spy_cat`: the breed validation runs as a FastAPI
dependency, i.e. strictly before the handler body calls `crud.create_cat`. -/
def create_spy_cat (fetch : FetchResult) (cat_in : CatCreate) (s : Store) :
    Except ErrCode Cat × Store :=
  match validate_cat_breed_from_payload fetch cat_in with
  | Except.error e => (Except.error e, s)
  | Except.ok ci => create_cat ci s

/-! ## Reachable states

The transition system generated by the state-touching operations from the
reset state.  `create_mission` carries the 1–3 target shape constraint that
Pydantic (`MissionCreate.targets`, `min_length=1, max_length=3`) enforces
before the operation is ever invoked.  The read endpoints `get_mission` /
`get_missions` are included because their re-resolution writes back into the
store; the remaining reads are pure. -/
inductive Reachable : Store → Prop where
  | init : Reachable initStore
  | createCat {s} (ci : CatCreate) : Reachable s → Reachable (create_cat ci s).2
  | updateSalary {s} (cid : Int) (sal : Rat) : Reachable s →
      Reachable (update_cat_salary cid sal s).2
  | deleteCat {s} (cid : Int) : Reachable s → Reachable (delete_cat cid s).2
  | createMission {s} (mi : MissionCreate) : Reachable s →
      1 ≤ mi.targets.length → mi.targets.length ≤ 3 →
      Reachable (create_mission mi s).2
  | getMission {s} (mid : Int) : Reachable s → Reachable (get_mission mid s).2
  | getMissions {s} (skip limit : Nat) : Reachable s →
      Reachable (get_missions skip limit s).2
  | assignCat {s} (mid cid : Int) : Reachable s →
      Reachable (assign_cat_to_mission mid cid s).2
  | updateNotes {s} (mid tid : Int) (n : String) : Reachable s →
      Reachable (update_target_notes mid tid n s).2
  | markComplete {s} (mid tid : Int) : Reachable s →
      Reachable (mark_target_complete mid tid s).2
  | deleteMission {s} (mid : Int) : Reachable s →
      Reachable (delete_mission mid s).2


/-! ## Laws of the association-list primitives -/

theorem lookupA_cons {α : Type} (k0 : Int) (v0 : α) (rest : List (Int × α)) (k : Int) :
    lookupA ((k0, v0) :: rest) k = if k0 = k then some v0 else lookupA rest k := rfl

theorem lookupA_append {α : Type} (l1 l2 : List (Int × α)) (k : Int) :
    lookupA (l1 ++ l2) k =
      match lookupA l1 k with
      | some v => some v
      | none => lookupA l2 k := by
  induction l1 with
  | nil => simp [lookupA]
  | cons kv rest ih =>
    obtain ⟨k0, v0⟩ := kv
    by_cases h : k0 = k <;> simp [lookupA_cons, h, ih]

theorem lookupA_updateA_self {α : Type} (l : List (Int × α)) (k : Int) (v : α) :
    lookupA (updateA l k v) k = (lookupA l k).map (fun _ => v) := by
  induction l with
  | nil => simp [lookupA, updateA]
  | cons kv rest ih =>
    obtain ⟨k0, v0⟩ := kv
    by_cases h : k0 = k <;>
      simp [updateA, lookupA_cons, h, ih] at *

theorem updateA_cons {α : Type} (k0 : Int) (v0 : α) (rest : List (Int × α))
    (k : Int) (v : α) :
    updateA ((k0, v0) :: rest) k v =
      (if k0 = k then (k, v) else (k0, v0)) :: updateA rest k v := rfl

theorem eraseA_cons {α : Type} (k0 : Int) (v0 : α) (rest : List (Int × α)) (k : Int) :
    eraseA ((k0, v0) :: rest) k =
      if k0 = k then eraseA rest k else (k0, v0) :: eraseA rest k := by
  by_cases h : k0 = k <;> simp [eraseA, List.filter_cons, h]

theorem lookupA_updateA_ne {α : Type} (l : List (Int × α)) (k : Int) (v : α)
    {k' : Int} (hne : k' ≠ k) :
    lookupA (updateA l k v) k' = lookupA l k' := by
  induction l with
  | nil => rfl
  | cons kv rest ih =>
    obtain ⟨k0, v0⟩ := kv
    rw [updateA_cons]
    by_cases h : k0 = k
    · subst h
      rw [if_pos rfl, lookupA_cons, if_neg (fun hh => hne hh.symm), ih,
          lookupA_cons, if_neg (fun hh => hne hh.symm)]
    · rw [if_neg h, lookupA_cons, lookupA_cons]
      by_cases h1 : k0 = k'
      · rw [if_pos h1, if_pos h1]
      · rw [if_neg h1, if_neg h1, ih]

theorem lookupA_eraseA_self {α : Type} (l : List (Int × α)) (k : Int) :
    lookupA (eraseA l k) k = none := by
  induction l with
  | nil => rfl
  | cons kv rest ih =>
    obtain ⟨k0, v0⟩ := kv
    rw [eraseA_cons]
    by_cases h : k0 = k
    · rw [if_pos h]
      exact ih
    · rw [if_neg h, lookupA_cons, if_neg h]
      exact ih

theorem lookupA_eraseA_ne {α : Type} (l : List (Int × α)) (k : Int)
    {k' : Int} (hne : k' ≠ k) :
    lookupA (eraseA l k) k' = lookupA l k' := by
  induction l with
  | nil => rfl
  | cons kv rest ih =>
    obtain ⟨k0, v0⟩ := kv
    rw [eraseA_cons]
    by_cases h : k0 = k
    · subst h
      rw [if_pos rfl, ih, lookupA_cons, if_neg (fun hh => hne hh.symm)]
    · rw [if_neg h, lookupA_cons, lookupA_cons]
      by_cases h1 : k0 = k'
      · rw [if_pos h1, if_pos h1]
      · rw [if_neg h1, if_neg h1, ih]

theorem lookupA_isSome_iff {α : Type} (l : List (Int × α)) (k : Int) :
    (lookupA l k).isSome = true ↔ k ∈ l.map Prod.fst := by
  induction l with
  | nil => simp [lookupA]
  | cons kv rest ih =>
    obtain ⟨k0, v0⟩ := kv
    by_cases h : k0 = k <;> simp [lookupA_cons, h, ih]
    exact fun h' => (h h'.symm).elim

theorem lookupA_eq_some_mem {α : Type} {l : List (Int × α)} {k : Int} {v : α}
    (h : lookupA l k = some v) : (k, v) ∈ l := by
  induction l with
  | nil => simp [lookupA] at h
  | cons kv rest ih =>
    obtain ⟨k0, v0⟩ := kv
    rw [lookupA_cons] at h
    by_cases h0 : k0 = k
    · simp [h0] at h
      simp [h0, h]
    · simp [h0] at h
      exact List.mem_cons_of_mem _ (ih h)

theorem updateA_keys {α : Type} (l : List (Int × α)) (k : Int) (v : α) :
    (updateA l k v).map Prod.fst = l.map Prod.fst := by
  induction l with
  | nil => rfl
  | cons kv rest ih =>
    obtain ⟨k0, v0⟩ := kv
    by_cases h : k0 = k <;> simp [updateA, h] at * <;> exact ih

theorem updateA_of_not_mem {α : Type} {l : List (Int × α)} {k : Int} (v : α)
    (h : k ∉ l.map Prod.fst) : updateA l k v = l := by
  induction l with
  | nil => rfl
  | cons kv rest ih =>
    obtain ⟨k0, v0⟩ := kv
    simp only [List.map_cons, List.mem_cons, not_or] at h
    simp [updateA, Ne.symm h.1, List.map] at *
    exact ih h.2

theorem updateA_self {α : Type} {l : List (Int × α)} {k : Int} {v : α}
    (hnd : (l.map Prod.fst).Nodup) (h : lookupA l k = some v) :
    updateA l k v = l := by
  induction l with
  | nil => simp [lookupA] at h
  | cons kv rest ih =>
    obtain ⟨k0, v0⟩ := kv
    simp only [List.map_cons, List.nodup_cons] at hnd
    rw [lookupA_cons] at h
    by_cases h0 : k0 = k
    · subst h0
      simp at h
      subst h
      have hrest : updateA rest k0 v0 = rest := updateA_of_not_mem v0 hnd.1
      simp [updateA] at hrest ⊢
      exact hrest
    · simp [h0] at h
      have hrest := ih hnd.2 h
      simp [updateA, h0] at hrest ⊢
      exact hrest

theorem eraseA_keys_sublist {α : Type} (l : List (Int × α)) (k : Int) :
    List.Sublist ((eraseA l k).map Prod.fst) (l.map Prod.fst) :=
  List.Sublist.map Prod.fst (List.filter_sublist l)

theorem lookupA_foldl_eraseA {α : Type} (ids : List Int) (ts : List (Int × α)) (k : Int) :
    lookupA (ids.foldl (fun acc tid => eraseA acc tid) ts) k =
      if k ∈ ids then none else lookupA ts k := by
  induction ids generalizing ts with
  | nil => simp
  | cons tid rest ih =>
    by_cases h : k = tid
    · subst h
      by_cases h2 : k ∈ rest <;> simp [ih, lookupA_eraseA_self, h2]
    · by_cases h2 : k ∈ rest <;> simp [ih, lookupA_eraseA_ne _ _ h, h, h2]

theorem foldl_eraseA_keys_sublist {α : Type} (ids : List Int) (ts : List (Int × α)) :
    List.Sublist ((ids.foldl (fun acc tid => eraseA acc tid) ts).map Prod.fst)
      (ts.map Prod.fst) := by
  induction ids generalizing ts with
  | nil => simp
  | cons tid rest ih =>
    exact (ih (eraseA ts tid)).trans (eraseA_keys_sublist ts tid)

theorem conjTargets_congr {ts ts' : List (Int × Target)} {ids : List Int}
    (h : ∀ tid ∈ ids, flagOf ts' tid = flagOf ts tid) :
    conjTargets ts' ids = conjTargets ts ids := by
  unfold conjTargets
  induction ids with
  | nil => rfl
  | cons tid rest ih =>
    simp only [List.all_cons]
    rw [h tid (by simp), ih (fun t ht => h t (by simp [ht]))]

theorem flagOf_updateA_ne {ts : List (Int × Target)} {tid tid' : Int} (t' : Target)
    (h : tid' ≠ tid) : flagOf (updateA ts tid t') tid' = flagOf ts tid' := by
  unfold flagOf
  rw [lookupA_updateA_ne _ _ _ h]

theorem flagOf_append {ts newts : List (Int × Target)} {tid : Int}
    (h : (lookupA ts tid).isSome = true) :
    flagOf (ts ++ newts) tid = flagOf ts tid := by
  unfold flagOf
  rw [lookupA_append]
  cases hl : lookupA ts tid with
  | none => rw [hl] at h; simp at h
  | some t => simp

/-! ## The inductive invariant

Everything the reachable states of the store satisfy: id/key agreement,
counter freshness, each mission's targets resolve, the derived completion
flag, exclusive ownership of targets, and the two link invariants.  Note
`link_cat` is conditional on the referenced mission still existing: a cat's
mission link can dangle (see the counterexample for the symmetric-link
claim), but whenever the mission exists it points back. -/

structure WF (s : Store) : Prop where
  missions_nodup : (s.missions.map Prod.fst).Nodup
  cat_key : ∀ cid c, lookupA s.cats cid = some c → c.id = cid
  mission_key : ∀ mid m, lookupA s.missions mid = some m → m.id = mid
  target_key : ∀ tid t, lookupA s.targets tid = some t → t.id = tid
  cat_ctr : 1 ≤ s.next_cat_id
  mission_ctr : 1 ≤ s.next_mission_id
  target_ctr : 1 ≤ s.next_target_id
  cat_bound : ∀ cid c, lookupA s.cats cid = some c → 1 ≤ cid ∧ cid < s.next_cat_id
  mission_bound : ∀ mid m, lookupA s.missions mid = some m →
      1 ≤ mid ∧ mid < s.next_mission_id
  target_bound : ∀ tid t, lookupA s.targets tid = some t →
      1 ≤ tid ∧ tid < s.next_target_id
  resolve : ∀ mid m, lookupA s.missions mid = some m → ∀ tid ∈ m.targetIds,
      (lookupA s.targets tid).isSome = true
  conj : ∀ mid m, lookupA s.missions mid = some m →
      m.is_complete = conjTargets s.targets m.targetIds
  disj : ∀ mid m mid' m', lookupA s.missions mid = some m →
      lookupA s.missions mid' = some m' → mid ≠ mid' →
      ∀ tid ∈ m.targetIds, tid ∉ m'.targetIds
  link_cat : ∀ cid c, lookupA s.cats cid = some c → ∀ mid, c.mission_id = some mid →
      ∀ m, lookupA s.missions mid = some m → m.cat_id = some cid
  link_mission : ∀ mid m, lookupA s.missions mid = some m → m.is_complete = false →
      ∀ cid, m.cat_id = some cid →
      ∃ c, lookupA s.cats cid = some c ∧ c.mission_id = some mid
  cat_mid_bound : ∀ cid c, lookupA s.cats cid = some c → ∀ mid,
      c.mission_id = some mid → mid < s.next_mission_id

theorem wf_init : WF initStore := by
  constructor <;> simp [initStore, lookupA]

/-- On a well-formed store the re-resolution of a stored mission's target
list is the identity: every id still resolves. -/
theorem refreshTargets_eq {s : Store} (h : WF s) {mid : Int} {m : Mission}
    (hm : lookupA s.missions mid = some m) :
    refreshTargets s.targets m.targetIds = m.targetIds := by
  unfold refreshTargets
  rw [List.filter_eq_self]
  intro tid htid
  exact h.resolve mid m hm tid htid

/-- On a well-formed store `get_mission` is an effect-free lookup. -/
theorem get_mission_eq {s : Store} (h : WF s) (mid : Int) :
    get_mission mid s = (lookupA s.missions mid, s) := by
  unfold get_mission
  cases hm : lookupA s.missions mid with
  | none => rfl
  | some m =>
    dsimp only
    rw [refreshTargets_eq h hm]
    have hm' : ({ m with targetIds := m.targetIds } : Mission) = m := rfl
    rw [hm']
    rw [updateA_self h.missions_nodup hm]

/-- On a well-formed store `refreshMission` is the identity. -/
theorem refreshMission_eq {s : Store} (h : WF s) (mid : Int) :
    refreshMission s mid = s := by
  unfold refreshMission
  cases hm : lookupA s.missions mid with
  | none => rfl
  | some m =>
    dsimp only
    rw [refreshTargets_eq h hm]
    have hm' : ({ m with targetIds := m.targetIds } : Mission) = m := rfl
    rw [hm']
    rw [updateA_self h.missions_nodup hm]

theorem foldl_refreshMission_eq {s : Store} (h : WF s) (mids : List Int) :
    mids.foldl refreshMission s = s := by
  induction mids with
  | nil => rfl
  | cons mid rest ih =>
    rw [List.foldl_cons, refreshMission_eq h, ih]

/-- On a well-formed store `get_missions` leaves the store unchanged. -/
theorem get_missions_eq {s : Store} (h : WF s) (skip limit : Nat) :
    (get_missions skip limit s).2 = s := by
  unfold get_missions
  exact foldl_refreshMission_eq h _

/-! ## Elimination forms for lookups after each kind of write -/

theorem lookupA_updateA_cases {α : Type} {l : List (Int × α)} {k : Int} {v : α}
    {k' : Int} {v' : α} (h : lookupA (updateA l k v) k' = some v') :
    (k' = k ∧ v' = v ∧ (lookupA l k).isSome = true) ∨
      (k' ≠ k ∧ lookupA l k' = some v') := by
  by_cases hk : k' = k
  · subst hk
    rw [lookupA_updateA_self] at h
    cases hl : lookupA l k' with
    | none => rw [hl] at h; simp at h
    | some w =>
      rw [hl] at h
      simp at h
      exact Or.inl ⟨rfl, h.symm, rfl⟩
  · rw [lookupA_updateA_ne _ _ _ hk] at h
    exact Or.inr ⟨hk, h⟩

theorem lookupA_snoc {α : Type} (l : List (Int × α)) (n : Int) (v : α) (k : Int) :
    lookupA (l ++ [(n, v)]) k =
      match lookupA l k with
      | some w => some w
      | none => if n = k then some v else none := by
  rw [lookupA_append]
  rfl

theorem lookupA_snoc_cases {α : Type} {l : List (Int × α)} {n : Int} {v : α}
    {k : Int} {w : α} (h : lookupA (l ++ [(n, v)]) k = some w) :
    lookupA l k = some w ∨ (lookupA l k = none ∧ k = n ∧ w = v) := by
  rw [lookupA_snoc] at h
  cases hl : lookupA l k with
  | none =>
    rw [hl] at h
    by_cases hn : n = k
    · rw [if_pos hn] at h
      exact Or.inr ⟨rfl, hn.symm, (Option.some_inj.mp h).symm⟩
    · rw [if_neg hn] at h
      simp at h
  | some u =>
    rw [hl] at h
    exact Or.inl h

theorem lookupA_snoc_old {α : Type} {l : List (Int × α)} {n : Int} (v : α)
    {k : Int} {w : α} (h : lookupA l k = some w) :
    lookupA (l ++ [(n, v)]) k = some w := by
  rw [lookupA_snoc, h]

theorem lookupA_foldl_eraseA_cases {α : Type} {ids : List Int}
    {ts : List (Int × α)} {k : Int} {v : α}
    (h : lookupA (ids.foldl (fun acc tid => eraseA acc tid) ts) k = some v) :
    k ∉ ids ∧ lookupA ts k = some v := by
  rw [lookupA_foldl_eraseA] at h
  by_cases hk : k ∈ ids
  · rw [if_pos hk] at h
    simp at h
  · rw [if_neg hk] at h
    exact ⟨hk, h⟩

theorem lookupA_eraseA_cases {α : Type} {l : List (Int × α)} {k k' : Int} {v : α}
    (h : lookupA (eraseA l k) k' = some v) : k' ≠ k ∧ lookupA l k' = some v := by
  by_cases hk : k' = k
  · subst hk
    rw [lookupA_eraseA_self] at h
    simp at h
  · rw [lookupA_eraseA_ne _ _ hk] at h
    exact ⟨hk, h⟩

/-! ## Preservation of the invariant, operation by operation -/

theorem wf_get_mission {s : Store} (h : WF s) (mid : Int) :
    WF (get_mission mid s).2 := by
  rw [get_mission_eq h]
  exact h

theorem wf_get_missions {s : Store} (h : WF s) (skip limit : Nat) :
    WF (get_missions skip limit s).2 := by
  rw [get_missions_eq h]
  exact h

theorem wf_update_cat_salary {s : Store} (h : WF s) (cid : Int) (sal : Rat) :
    WF (update_cat_salary cid sal s).2 := by
  unfold update_cat_salary
  cases hc : lookupA s.cats cid with
  | none => exact h
  | some c =>
    dsimp only
    constructor
    case missions_nodup => exact h.missions_nodup
    case mission_key => exact h.mission_key
    case target_key => exact h.target_key
    case cat_ctr => exact h.cat_ctr
    case mission_ctr => exact h.mission_ctr
    case target_ctr => exact h.target_ctr
    case mission_bound => exact h.mission_bound
    case target_bound => exact h.target_bound
    case resolve => exact h.resolve
    case conj => exact h.conj
    case disj => exact h.disj
    case cat_key =>
      intro cid1 c1 h1
      rcases lookupA_updateA_cases h1 with ⟨heq, hv, _⟩ | ⟨_, hold⟩
      · subst hv
        rw [heq]
        show c.id = cid
        exact h.cat_key _ _ hc
      · exact h.cat_key _ _ hold
    case cat_bound =>
      intro cid1 c1 h1
      rcases lookupA_updateA_cases h1 with ⟨heq, hv, _⟩ | ⟨_, hold⟩
      · rw [heq]
        exact h.cat_bound _ _ hc
      · exact h.cat_bound _ _ hold
    case link_cat =>
      intro cid1 c1 h1 mid hmid m hm
      rcases lookupA_updateA_cases h1 with ⟨heq, hv, _⟩ | ⟨_, hold⟩
      · subst hv
        rw [heq]
        exact h.link_cat _ _ hc mid hmid m hm
      · exact h.link_cat _ _ hold mid hmid m hm
    case link_mission =>
      intro mid m hm hfalse cid1 hcid1
      obtain ⟨c1, hc1, hmc1⟩ := h.link_mission mid m hm hfalse cid1 hcid1
      by_cases hx : cid1 = cid
      · subst hx
        refine ⟨{ c with salary := sal }, ?_, ?_⟩
        · rw [lookupA_updateA_self, hc]
          rfl
        · rw [hc1] at hc
          cases hc
          exact hmc1
      · exact ⟨c1, by rw [lookupA_updateA_ne _ _ _ hx]; exact hc1, hmc1⟩
    case cat_mid_bound =>
      intro cid1 c1 h1 mid hmid
      rcases lookupA_updateA_cases h1 with ⟨heq, hv, _⟩ | ⟨_, hold⟩
      · subst hv
        exact h.cat_mid_bound _ _ hc mid hmid
      · exact h.cat_mid_bound _ _ hold mid hmid

theorem lookupA_append_cases {α : Type} {l1 l2 : List (Int × α)} {k : Int} {v : α}
    (h : lookupA (l1 ++ l2) k = some v) :
    lookupA l1 k = some v ∨ (lookupA l1 k = none ∧ lookupA l2 k = some v) := by
  rw [lookupA_append] at h
  cases hl : lookupA l1 k with
  | none =>
    rw [hl] at h
    exact Or.inr ⟨rfl, h⟩
  | some w =>
    rw [hl] at h
    exact Or.inl h

theorem lookupA_append_old {α : Type} {l1 : List (Int × α)} (l2 : List (Int × α))
    {k : Int} {v : α} (h : lookupA l1 k = some v) :
    lookupA (l1 ++ l2) k = some v := by
  rw [lookupA_append, h]

theorem wf_create_cat {s : Store} (h : WF s) (ci : CatCreate) :
    WF (create_cat ci s).2 := by
  unfold create_cat
  split
  · exact h
  · dsimp only
    constructor
    case missions_nodup => exact h.missions_nodup
    case mission_key => exact h.mission_key
    case target_key => exact h.target_key
    case cat_ctr =>
      have := h.cat_ctr
      dsimp only
      omega
    case mission_ctr => exact h.mission_ctr
    case target_ctr => exact h.target_ctr
    case mission_bound => exact h.mission_bound
    case target_bound => exact h.target_bound
    case resolve => exact h.resolve
    case conj => exact h.conj
    case disj => exact h.disj
    case cat_key =>
      intro cid1 c1 h1
      rcases lookupA_snoc_cases h1 with hold | ⟨_, hkn, hv⟩
      · exact h.cat_key _ _ hold
      · subst hv
        rw [hkn]
    case cat_bound =>
      intro cid1 c1 h1
      have hc := h.cat_ctr
      dsimp only at h1 ⊢
      rcases lookupA_snoc_cases h1 with hold | ⟨_, hkn, hv⟩
      · have := h.cat_bound _ _ hold
        omega
      · rw [hkn]
        omega
    case link_cat =>
      intro cid1 c1 h1 mid hmid m hm
      rcases lookupA_snoc_cases h1 with hold | ⟨_, _, hv⟩
      · exact h.link_cat _ _ hold mid hmid m hm
      · subst hv
        simp at hmid
    case link_mission =>
      intro mid m hm hfalse cid1 hcid1
      obtain ⟨c1, hc1, hmc1⟩ := h.link_mission mid m hm hfalse cid1 hcid1
      exact ⟨c1, lookupA_snoc_old _ hc1, hmc1⟩
    case cat_mid_bound =>
      intro cid1 c1 h1 mid hmid
      rcases lookupA_snoc_cases h1 with hold | ⟨_, _, hv⟩
      · exact h.cat_mid_bound _ _ hold mid hmid
      · subst hv
        simp at hmid

/-! ## `create_mission` and the shape of the allocation loop -/

/-- The target entries `allocTargets` appends: consecutive fresh ids from
`n`, each with `is_complete = false`. -/
def freshTargets : List TargetCreate → Int → List (Int × Target)
  | [], _ => []
  | t :: rest, n =>
    (n, { id := n, name := t.name, country := t.country, notes := t.notes,
          is_complete := false }) :: freshTargets rest (n + 1)

theorem allocTargets_eq (ts : List TargetCreate) (s : Store) :
    allocTargets ts s =
      ((freshTargets ts s.next_target_id).map Prod.fst,
        { s with targets := s.targets ++ freshTargets ts s.next_target_id,
                 next_target_id := s.next_target_id + ts.length }) := by
  induction ts generalizing s with
  | nil => simp [allocTargets, freshTargets]
  | cons t rest ih =>
    simp [allocTargets, freshTargets, ih, List.append_assoc]
    ring

theorem freshTargets_mem {ts : List TargetCreate} {n : Int} {kt : Int × Target}
    (h : kt ∈ freshTargets ts n) :
    kt.2.id = kt.1 ∧ kt.2.is_complete = false ∧ n ≤ kt.1 ∧ kt.1 < n + ts.length := by
  induction ts generalizing n with
  | nil => simp [freshTargets] at h
  | cons t rest ih =>
    simp only [freshTargets, List.mem_cons] at h
    rcases h with rfl | h
    · refine ⟨rfl, rfl, le_refl n, ?_⟩
      simp only [List.length_cons]
      push_cast
      omega
    · obtain ⟨h1, h2, h3, h4⟩ := ih h
      refine ⟨h1, h2, by omega, ?_⟩
      simp only [List.length_cons]
      push_cast at h4 ⊢
      omega

theorem freshTargets_keys_bound {ts : List TargetCreate} {n tid : Int}
    (h : tid ∈ (freshTargets ts n).map Prod.fst) :
    n ≤ tid ∧ tid < n + ts.length := by
  simp only [List.mem_map] at h
  obtain ⟨kt, hkt, rfl⟩ := h
  exact ⟨(freshTargets_mem hkt).2.2.1, (freshTargets_mem hkt).2.2.2⟩

theorem freshTargets_length (ts : List TargetCreate) (n : Int) :
    (freshTargets ts n).length = ts.length := by
  induction ts generalizing n with
  | nil => rfl
  | cons t rest ih => simp [freshTargets, ih]

theorem wf_create_mission {s : Store} (h : WF s) (mi : MissionCreate)
    (hlen : 1 ≤ mi.targets.length) :
    WF (create_mission mi s).2 := by
  unfold create_mission
  rw [allocTargets_eq]
  dsimp only
  have hTctr := h.target_ctr
  have hMctr := h.mission_ctr
  have hold_none : ∀ tid ∈ (freshTargets mi.targets s.next_target_id).map Prod.fst,
      lookupA s.targets tid = none := by
    intro tid htid
    cases hl : lookupA s.targets tid with
    | none => rfl
    | some t =>
      have hb := h.target_bound _ _ hl
      have hk := freshTargets_keys_bound htid
      omega
  have hold_some : ∀ tid, (lookupA s.targets tid).isSome = true →
      (lookupA (s.targets ++ freshTargets mi.targets s.next_target_id) tid).isSome
        = true := by
    intro tid htid
    obtain ⟨t, ht⟩ := Option.isSome_iff_exists.mp htid
    rw [lookupA_append_old _ ht]
    rfl
  have hnew_some : ∀ tid ∈ (freshTargets mi.targets s.next_target_id).map Prod.fst,
      (lookupA (s.targets ++ freshTargets mi.targets s.next_target_id) tid).isSome
        = true := by
    intro tid htid
    rw [lookupA_append, hold_none tid htid]
    exact (lookupA_isSome_iff _ _).mpr htid
  have hconj_old : ∀ (ids : List Int),
      (∀ tid ∈ ids, (lookupA s.targets tid).isSome = true) →
      conjTargets (s.targets ++ freshTargets mi.targets s.next_target_id) ids =
        conjTargets s.targets ids := by
    intro ids hres
    exact conjTargets_congr (fun tid ht => flagOf_append (hres tid ht))
  constructor
  case cat_key => exact h.cat_key
  case cat_ctr => exact h.cat_ctr
  case cat_bound => exact h.cat_bound
  case mission_ctr =>
    dsimp only
    omega
  case target_ctr =>
    dsimp only
    omega
  case missions_nodup =>
    dsimp only
    rw [List.map_append]
    refine List.Nodup.append h.missions_nodup (by simp) ?_
    intro a ha
    simp only [List.map_cons, List.map_nil, List.mem_singleton]
    intro hEq
    have : (lookupA s.missions a).isSome = true := (lookupA_isSome_iff _ _).mpr ha
    obtain ⟨m, hm⟩ := Option.isSome_iff_exists.mp this
    have := h.mission_bound _ _ hm
    omega
  case mission_key =>
    intro mid m hm
    rcases lookupA_snoc_cases hm with hold | ⟨_, hkn, hv⟩
    · exact h.mission_key _ _ hold
    · subst hv
      rw [hkn]
  case target_key =>
    intro tid t ht
    rcases lookupA_append_cases ht with hold | ⟨_, hnew⟩
    · exact h.target_key _ _ hold
    · exact ((freshTargets_mem (lookupA_eq_some_mem hnew)).1)
  case mission_bound =>
    intro mid m hm
    dsimp only
    rcases lookupA_snoc_cases hm with hold | ⟨_, hkn, _⟩
    · have := h.mission_bound _ _ hold
      omega
    · omega
  case target_bound =>
    intro tid t ht
    dsimp only
    rcases lookupA_append_cases ht with hold | ⟨_, hnew⟩
    · have := h.target_bound _ _ hold
      omega
    · have hk := (freshTargets_mem (lookupA_eq_some_mem hnew)).2.2
      dsimp only at hk
      omega
  case resolve =>
    intro mid m hm tid htid
    rcases lookupA_snoc_cases hm with hold | ⟨_, _, hv⟩
    · exact hold_some tid (h.resolve _ _ hold tid htid)
    · subst hv
      exact hnew_some tid htid
  case conj =>
    intro mid m hm
    rcases lookupA_snoc_cases hm with hold | ⟨_, _, hv⟩
    · rw [hconj_old _ (h.resolve _ _ hold), ← h.conj _ _ hold]
    · subst hv
      dsimp only
      have hne : (freshTargets mi.targets s.next_target_id).map Prod.fst ≠ [] := by
        have hlen2 : ((freshTargets mi.targets s.next_target_id).map Prod.fst).length
            = mi.targets.length := by
          rw [List.length_map, freshTargets_length]
        intro hnil
        rw [hnil] at hlen2
        simp at hlen2
        omega
      obtain ⟨tid0, htid0⟩ := List.exists_mem_of_ne_nil _ hne
      symm
      unfold conjTargets
      rw [List.all_eq_false]
      refine ⟨tid0, htid0, ?_⟩
      unfold flagOf
      rw [lookupA_append, hold_none tid0 htid0]
      obtain ⟨t0, ht0⟩ := Option.isSome_iff_exists.mp ((lookupA_isSome_iff _ _).mpr htid0)
      rw [ht0]
      have ht0flag := (freshTargets_mem (lookupA_eq_some_mem ht0)).2.1
      dsimp only at ht0flag ⊢
      simp [ht0flag]
  case disj =>
    intro mid m mid' m' hm hm' hne tid htid
    rcases lookupA_snoc_cases hm with hold | ⟨_, hkn, hv⟩ <;>
      rcases lookupA_snoc_cases hm' with hold' | ⟨_, hkn', hv'⟩
    · exact h.disj _ _ _ _ hold hold' hne tid htid
    · subst hv'
      intro hmem
      have h1 := h.target_bound _ _
        (Option.isSome_iff_exists.mp (h.resolve _ _ hold tid htid)).choose_spec
      have h2 := freshTargets_keys_bound hmem
      omega
    · subst hv
      intro hmem
      have h1 := h.target_bound _ _
        (Option.isSome_iff_exists.mp (h.resolve _ _ hold' tid hmem)).choose_spec
      have h2 := freshTargets_keys_bound htid
      omega
    · rw [hkn, hkn'] at hne
      exact absurd rfl hne
  case link_cat =>
    intro cid c hc mid hmid m hm
    rcases lookupA_snoc_cases hm with hold | ⟨_, hkn, _⟩
    · exact h.link_cat _ _ hc mid hmid m hold
    · have := h.cat_mid_bound _ _ hc mid hmid
      omega
  case link_mission =>
    intro mid m hm hfalse cid hcid
    rcases lookupA_snoc_cases hm with hold | ⟨_, _, hv⟩
    · exact h.link_mission _ _ hold hfalse cid hcid
    · subst hv
      simp at hcid
  case cat_mid_bound =>
    intro cid c hc mid hmid
    dsimp only
    have := h.cat_mid_bound _ _ hc mid hmid
    omega

theorem wf_setLinks {s : Store} (h : WF s) {mission_id cat_id : Int}
    {m : Mission} {c : Cat}
    (hm : lookupA s.missions mission_id = some m)
    (hc : lookupA s.cats cat_id = some c)
    (hmcat : m.cat_id = none)
    (hcm : ∀ mid2, c.mission_id = some mid2 →
      ∀ m2, lookupA s.missions mid2 = some m2 → m2.is_complete = true) :
    WF (setLinks mission_id cat_id m c s).2 := by
  unfold setLinks
  dsimp only
  constructor
  case missions_nodup =>
    dsimp only
    rw [updateA_keys]
    exact h.missions_nodup
  case cat_ctr => exact h.cat_ctr
  case mission_ctr => exact h.mission_ctr
  case target_ctr => exact h.target_ctr
  case target_key => exact h.target_key
  case target_bound => exact h.target_bound
  case cat_key =>
    intro cid1 c1 h1
    rcases lookupA_updateA_cases h1 with ⟨heq, hv, _⟩ | ⟨_, hold⟩
    · subst hv
      rw [heq]
      show c.id = cat_id
      exact h.cat_key _ _ hc
    · exact h.cat_key _ _ hold
  case mission_key =>
    intro mid1 m1 h1
    rcases lookupA_updateA_cases h1 with ⟨heq, hv, _⟩ | ⟨_, hold⟩
    · subst hv
      rw [heq]
      show m.id = mission_id
      exact h.mission_key _ _ hm
    · exact h.mission_key _ _ hold
  case cat_bound =>
    intro cid1 c1 h1
    rcases lookupA_updateA_cases h1 with ⟨heq, _, _⟩ | ⟨_, hold⟩
    · rw [heq]
      exact h.cat_bound _ _ hc
    · exact h.cat_bound _ _ hold
  case mission_bound =>
    intro mid1 m1 h1
    rcases lookupA_updateA_cases h1 with ⟨heq, _, _⟩ | ⟨_, hold⟩
    · rw [heq]
      exact h.mission_bound _ _ hm
    · exact h.mission_bound _ _ hold
  case resolve =>
    intro mid1 m1 h1 tid htid
    rcases lookupA_updateA_cases h1 with ⟨_, hv, _⟩ | ⟨_, hold⟩
    · subst hv
      exact h.resolve _ _ hm tid htid
    · exact h.resolve _ _ hold tid htid
  case conj =>
    intro mid1 m1 h1
    rcases lookupA_updateA_cases h1 with ⟨_, hv, _⟩ | ⟨_, hold⟩
    · subst hv
      show m.is_complete = conjTargets s.targets m.targetIds
      exact h.conj _ _ hm
    · exact h.conj _ _ hold
  case disj =>
    intro mid1 m1 mid2 m2 h1 h2 hne tid htid
    rcases lookupA_updateA_cases h1 with ⟨heq1, hv1, _⟩ | ⟨_, hold1⟩ <;>
      rcases lookupA_updateA_cases h2 with ⟨heq2, hv2, _⟩ | ⟨_, hold2⟩
    · rw [heq1, heq2] at hne
      exact absurd rfl hne
    · subst hv1
      rw [heq1] at hne
      exact h.disj _ _ _ _ hm hold2 hne tid htid
    · subst hv2
      rw [heq2] at hne
      exact h.disj _ _ _ _ hold1 hm hne tid htid
    · exact h.disj _ _ _ _ hold1 hold2 hne tid htid
  case link_cat =>
    intro cid1 c1 h1 mid hmid m1 hm1
    rcases lookupA_updateA_cases h1 with ⟨heq, hv, _⟩ | ⟨hne, hold⟩
    · subst hv
      have hmid' : mission_id = mid := by
        simpa using hmid
      subst hmid'
      rcases lookupA_updateA_cases hm1 with ⟨_, hv1, _⟩ | ⟨hne1, _⟩
      · subst hv1
        rw [heq]
      · exact absurd rfl hne1
    · rcases lookupA_updateA_cases hm1 with ⟨heq1, hv1, _⟩ | ⟨_, hold1⟩
      · subst hv1
        subst heq1
        have hcontra := h.link_cat _ _ hold mid hmid m hm
        rw [hmcat] at hcontra
        simp at hcontra
      · exact h.link_cat _ _ hold mid hmid m1 hold1
  case link_mission =>
    intro mid1 m1 h1 hfalse cid1 hcid1
    rcases lookupA_updateA_cases h1 with ⟨heq, hv, _⟩ | ⟨hne, hold⟩
    · subst hv
      have hcid1' : cat_id = cid1 := by
        simpa using hcid1
      subst hcid1'
      refine ⟨{ c with mission_id := some mission_id }, ?_, ?_⟩
      · rw [lookupA_updateA_self, hc]
        rfl
      · rw [heq]
    · obtain ⟨c1, hc1, hmc1⟩ := h.link_mission _ _ hold hfalse cid1 hcid1
      by_cases hx : cid1 = cat_id
      · subst hx
        rw [hc] at hc1
        cases hc1
        have := hcm mid1 hmc1 m1 hold
        rw [hfalse] at this
        simp at this
      · exact ⟨c1, by rw [lookupA_updateA_ne _ _ _ hx]; exact hc1, hmc1⟩
  case cat_mid_bound =>
    intro cid1 c1 h1 mid hmid
    rcases lookupA_updateA_cases h1 with ⟨_, hv, _⟩ | ⟨_, hold⟩
    · subst hv
      have hmid' : mission_id = mid := by
        simpa using hmid
      subst hmid'
      exact (h.mission_bound _ _ hm).2
    · exact h.cat_mid_bound _ _ hold mid hmid

theorem wf_assign {s : Store} (h : WF s) (mid cid : Int) :
    WF (assign_cat_to_mission mid cid s).2 := by
  unfold assign_cat_to_mission
  rw [get_mission_eq h]
  cases hm : lookupA s.missions mid with
  | none => exact h
  | some m =>
    dsimp only
    cases hc : lookupA s.cats cid with
    | none => exact h
    | some c =>
      dsimp only
      cases hmcat : m.cat_id with
      | some x =>
        simp only [Option.isSome_some, if_true]
        exact h
      | none =>
        simp only [Option.isSome_none, Bool.false_eq_true, if_false]
        cases hcm : c.mission_id with
        | none =>
          exact wf_setLinks h hm hc hmcat
            (fun mid2 h2 => by rw [hcm] at h2; cases h2)
        | some mid2 =>
          dsimp only
          rw [get_mission_eq h]
          cases ham : lookupA s.missions mid2 with
          | none =>
            dsimp only
            refine wf_setLinks h hm hc hmcat ?_
            intro mid2' h2 m2 hm2
            rw [hcm] at h2
            cases h2
            rw [ham] at hm2
            cases hm2
          | some am =>
            dsimp only
            cases hamc : am.is_complete with
            | true =>
              rw [if_pos rfl]
              refine wf_setLinks h hm hc hmcat ?_
              intro mid2' h2 m2 hm2
              rw [hcm] at h2
              cases h2
              rw [ham] at hm2
              cases hm2
              exact hamc
            | false =>
              simp only [Bool.false_eq_true, if_false]
              exact h

theorem wf_update_target_notes {s : Store} (h : WF s) (mid tid : Int) (n : String) :
    WF (update_target_notes mid tid n s).2 := by
  unfold update_target_notes
  rw [get_mission_eq h]
  cases hm : lookupA s.missions mid with
  | none => exact h
  | some m =>
    dsimp only
    cases hmc : m.is_complete with
    | true => rw [if_pos rfl]; exact h
    | false =>
      simp only [Bool.false_eq_true, if_false]
      cases ht : lookupA s.targets tid with
      | none => exact h
      | some t =>
        dsimp only
        cases hmem : m.targetIds.contains tid with
        | false => simp only [Bool.false_eq_true, if_false]; exact h
        | true =>
          rw [if_pos rfl]
          cases htc : t.is_complete with
          | true => rw [if_pos rfl]; exact h
          | false =>
            simp only [Bool.false_eq_true, if_false]
            have hflag : ∀ tid2,
                flagOf (updateA s.targets tid
                  { id := t.id, name := t.name, country := t.country,
                    notes := some n, is_complete := false }) tid2 =
                  flagOf s.targets tid2 := by
              intro tid2
              by_cases hx : tid2 = tid
              · subst hx
                unfold flagOf
                rw [lookupA_updateA_self, ht]
                dsimp only
                exact htc.symm
              · exact flagOf_updateA_ne _ hx
            constructor
            case missions_nodup => exact h.missions_nodup
            case cat_key => exact h.cat_key
            case mission_key => exact h.mission_key
            case cat_ctr => exact h.cat_ctr
            case mission_ctr => exact h.mission_ctr
            case target_ctr => exact h.target_ctr
            case cat_bound => exact h.cat_bound
            case mission_bound => exact h.mission_bound
            case disj => exact h.disj
            case link_cat => exact h.link_cat
            case link_mission => exact h.link_mission
            case cat_mid_bound => exact h.cat_mid_bound
            case target_key =>
              intro tid1 t1 h1
              rcases lookupA_updateA_cases h1 with ⟨heq, hv, _⟩ | ⟨_, hold⟩
              · subst hv
                rw [heq]
                show t.id = tid
                exact h.target_key _ _ ht
              · exact h.target_key _ _ hold
            case target_bound =>
              intro tid1 t1 h1
              rcases lookupA_updateA_cases h1 with ⟨heq, _, _⟩ | ⟨_, hold⟩
              · rw [heq]
                exact h.target_bound _ _ ht
              · exact h.target_bound _ _ hold
            case resolve =>
              intro mid1 m1 hm1 tid2 htid2
              by_cases hx : tid2 = tid
              · subst hx
                rw [lookupA_updateA_self, ht]
                rfl
              · rw [lookupA_updateA_ne _ _ _ hx]
                exact h.resolve _ _ hm1 tid2 htid2
            case conj =>
              intro mid1 m1 hm1
              rw [conjTargets_congr (fun tid2 _ => hflag tid2)]
              exact h.conj _ _ hm1

theorem wf_mark_target_complete {s : Store} (h : WF s) (mid tid : Int) :
    WF (mark_target_complete mid tid s).2 := by
  unfold mark_target_complete
  rw [get_mission_eq h]
  cases hm : lookupA s.missions mid with
  | none => exact h
  | some m =>
    dsimp only
    cases hmc : m.is_complete with
    | true => rw [if_pos rfl]; exact h
    | false =>
      simp only [Bool.false_eq_true, if_false]
      cases ht : lookupA s.targets tid with
      | none => exact h
      | some t =>
        dsimp only
        cases hmem : m.targetIds.contains tid with
        | false => simp only [Bool.false_eq_true, if_false]; exact h
        | true =>
          rw [if_pos rfl]
          cases htc : t.is_complete with
          | true => rw [if_pos rfl]; exact h
          | false =>
            simp only [Bool.false_eq_true, if_false]
            have hmemP : tid ∈ m.targetIds := by simpa using hmem
            have hsome : ∀ tid2, (lookupA s.targets tid2).isSome = true →
                (lookupA (updateA s.targets tid
                  { id := t.id, name := t.name, country := t.country,
                    notes := t.notes, is_complete := true }) tid2).isSome = true := by
              intro tid2 h2
              by_cases hx : tid2 = tid
              · subst hx
                rw [lookupA_updateA_self, ht]
                rfl
              · rw [lookupA_updateA_ne _ _ _ hx]
                exact h2
            have hconj_other : ∀ mid1 m1, lookupA s.missions mid1 = some m1 →
                mid1 ≠ mid →
                conjTargets (updateA s.targets tid
                  { id := t.id, name := t.name, country := t.country,
                    notes := t.notes, is_complete := true }) m1.targetIds
                  = conjTargets s.targets m1.targetIds := by
              intro mid1 m1 hm1 hne
              refine conjTargets_congr ?_
              intro tid2 htid2
              refine flagOf_updateA_ne _ ?_
              intro hx
              subst hx
              exact (h.disj _ _ _ _ hm1 hm hne tid2 htid2) hmemP
            have htK : ∀ tid1 t1, lookupA (updateA s.targets tid
                  { id := t.id, name := t.name, country := t.country,
                    notes := t.notes, is_complete := true }) tid1 = some t1 →
                t1.id = tid1 ∧ 1 ≤ tid1 ∧ tid1 < s.next_target_id := by
              intro tid1 t1 h1
              rcases lookupA_updateA_cases h1 with ⟨heq, hv, _⟩ | ⟨_, hold⟩
              · subst hv
                rw [heq]
                refine ⟨?_, (h.target_bound _ _ ht).1, (h.target_bound _ _ ht).2⟩
                show t.id = tid
                exact h.target_key _ _ ht
              · exact ⟨h.target_key _ _ hold, (h.target_bound _ _ hold).1,
                  (h.target_bound _ _ hold).2⟩
            cases hall : conjTargets (updateA s.targets tid
                { id := t.id, name := t.name, country := t.country,
                  notes := t.notes, is_complete := true }) m.targetIds with
            | false =>
              simp only [Bool.false_eq_true, if_false]
              constructor
              case missions_nodup => exact h.missions_nodup
              case cat_key => exact h.cat_key
              case mission_key => exact h.mission_key
              case cat_ctr => exact h.cat_ctr
              case mission_ctr => exact h.mission_ctr
              case target_ctr => exact h.target_ctr
              case cat_bound => exact h.cat_bound
              case mission_bound => exact h.mission_bound
              case disj => exact h.disj
              case link_cat => exact h.link_cat
              case link_mission => exact h.link_mission
              case cat_mid_bound => exact h.cat_mid_bound
              case target_key =>
                intro tid1 t1 h1
                exact (htK tid1 t1 h1).1
              case target_bound =>
                intro tid1 t1 h1
                exact ⟨(htK tid1 t1 h1).2.1, (htK tid1 t1 h1).2.2⟩
              case resolve =>
                intro mid1 m1 hm1 tid2 htid2
                exact hsome tid2 (h.resolve _ _ hm1 tid2 htid2)
              case conj =>
                intro mid1 m1 hm1
                by_cases hx : mid1 = mid
                · subst hx
                  rw [hm] at hm1
                  cases hm1
                  rw [hmc, hall]
                · rw [hconj_other _ _ hm1 hx]
                  exact h.conj _ _ hm1
            | true =>
              rw [if_pos rfl]
              cases hcat2 : m.cat_id with
              | none =>
                dsimp only
                constructor
                case cat_key => exact h.cat_key
                case cat_ctr => exact h.cat_ctr
                case mission_ctr => exact h.mission_ctr
                case target_ctr => exact h.target_ctr
                case cat_bound => exact h.cat_bound
                case cat_mid_bound => exact h.cat_mid_bound
                case missions_nodup =>
                  dsimp only
                  rw [updateA_keys]
                  exact h.missions_nodup
                case mission_key =>
                  intro mid1 m1 h1
                  rcases lookupA_updateA_cases h1 with ⟨heq, hv, _⟩ | ⟨_, hold⟩
                  · subst hv
                    rw [heq]
                    show m.id = mid
                    exact h.mission_key _ _ hm
                  · exact h.mission_key _ _ hold
                case mission_bound =>
                  intro mid1 m1 h1
                  rcases lookupA_updateA_cases h1 with ⟨heq, _, _⟩ | ⟨_, hold⟩
                  · rw [heq]
                    exact h.mission_bound _ _ hm
                  · exact h.mission_bound _ _ hold
                case target_key =>
                  intro tid1 t1 h1
                  exact (htK tid1 t1 h1).1
                case target_bound =>
                  intro tid1 t1 h1
                  exact ⟨(htK tid1 t1 h1).2.1, (htK tid1 t1 h1).2.2⟩
                case resolve =>
                  intro mid1 m1 h1 tid2 htid2
                  rcases lookupA_updateA_cases h1 with ⟨_, hv, _⟩ | ⟨_, hold⟩
                  · subst hv
                    exact hsome tid2 (h.resolve _ _ hm tid2 htid2)
                  · exact hsome tid2 (h.resolve _ _ hold tid2 htid2)
                case conj =>
                  intro mid1 m1 h1
                  rcases lookupA_updateA_cases h1 with ⟨heq, hv, _⟩ | ⟨hne, hold⟩
                  · subst hv
                    show true = conjTargets _ m.targetIds
                    exact hall.symm
                  · rw [hconj_other _ _ hold hne]
                    exact h.conj _ _ hold
                case disj =>
                  intro mid1 m1 mid2 m2 h1 h2 hne tid2 htid2
                  rcases lookupA_updateA_cases h1 with ⟨heq1, hv1, _⟩ | ⟨_, hold1⟩ <;>
                    rcases lookupA_updateA_cases h2 with ⟨heq2, hv2, _⟩ | ⟨_, hold2⟩
                  · rw [heq1, heq2] at hne
                    exact absurd rfl hne
                  · subst hv1
                    rw [heq1] at hne
                    exact h.disj _ _ _ _ hm hold2 hne tid2 htid2
                  · subst hv2
                    rw [heq2] at hne
                    exact h.disj _ _ _ _ hold1 hm hne tid2 htid2
                  · exact h.disj _ _ _ _ hold1 hold2 hne tid2 htid2
                case link_cat =>
                  intro cid1 c1 h1 mid1 hmid1 m1 hm1
                  rcases lookupA_updateA_cases hm1 with ⟨heq1, hv1, _⟩ | ⟨_, hold1⟩
                  · subst hv1
                    subst heq1
                    have hcontra := h.link_cat _ _ h1 mid1 hmid1 m hm
                    rw [hcat2] at hcontra
                    simp at hcontra
                  · exact h.link_cat _ _ h1 mid1 hmid1 m1 hold1
                case link_mission =>
                  intro mid1 m1 h1 hfalse cid1 hcid1
                  rcases lookupA_updateA_cases h1 with ⟨_, hv1, _⟩ | ⟨_, hold1⟩
                  · subst hv1
                    simp at hfalse
                  · exact h.link_mission _ _ hold1 hfalse cid1 hcid1
              | some cid2 =>
                dsimp only
                obtain ⟨c2, hc2, hc2mid⟩ := h.link_mission _ _ hm hmc cid2 hcat2
                have hcid2pos := (h.cat_bound _ _ hc2).1
                rw [if_neg (by omega)]
                rw [hc2]
                dsimp only
                constructor
                case cat_ctr => exact h.cat_ctr
                case mission_ctr => exact h.mission_ctr
                case target_ctr => exact h.target_ctr
                case missions_nodup =>
                  dsimp only
                  rw [updateA_keys]
                  exact h.missions_nodup
                case cat_key =>
                  intro cid1 c1 h1
                  rcases lookupA_updateA_cases h1 with ⟨heq, hv, _⟩ | ⟨_, hold⟩
                  · subst hv
                    rw [heq]
                    show c2.id = cid2
                    exact h.cat_key _ _ hc2
                  · exact h.cat_key _ _ hold
                case cat_bound =>
                  intro cid1 c1 h1
                  rcases lookupA_updateA_cases h1 with ⟨heq, _, _⟩ | ⟨_, hold⟩
                  · rw [heq]
                    exact h.cat_bound _ _ hc2
                  · exact h.cat_bound _ _ hold
                case mission_key =>
                  intro mid1 m1 h1
                  rcases lookupA_updateA_cases h1 with ⟨heq, hv, _⟩ | ⟨_, hold⟩
                  · subst hv
                    rw [heq]
                    show m.id = mid
                    exact h.mission_key _ _ hm
                  · exact h.mission_key _ _ hold
                case mission_bound =>
                  intro mid1 m1 h1
                  rcases lookupA_updateA_cases h1 with ⟨heq, _, _⟩ | ⟨_, hold⟩
                  · rw [heq]
                    exact h.mission_bound _ _ hm
                  · exact h.mission_bound _ _ hold
                case target_key =>
                  intro tid1 t1 h1
                  exact (htK tid1 t1 h1).1
                case target_bound =>
                  intro tid1 t1 h1
                  exact ⟨(htK tid1 t1 h1).2.1, (htK tid1 t1 h1).2.2⟩
                case resolve =>
                  intro mid1 m1 h1 tid2 htid2
                  rcases lookupA_updateA_cases h1 with ⟨_, hv, _⟩ | ⟨_, hold⟩
                  · subst hv
                    exact hsome tid2 (h.resolve _ _ hm tid2 htid2)
                  · exact hsome tid2 (h.resolve _ _ hold tid2 htid2)
                case conj =>
                  intro mid1 m1 h1
                  rcases lookupA_updateA_cases h1 with ⟨heq, hv, _⟩ | ⟨hne, hold⟩
                  · subst hv
                    show true = conjTargets _ m.targetIds
                    exact hall.symm
                  · rw [hconj_other _ _ hold hne]
                    exact h.conj _ _ hold
                case disj =>
                  intro mid1 m1 mid2' m2 h1 h2 hne tid2 htid2
                  rcases lookupA_updateA_cases h1 with ⟨heq1, hv1, _⟩ | ⟨_, hold1⟩ <;>
                    rcases lookupA_updateA_cases h2 with ⟨heq2, hv2, _⟩ | ⟨_, hold2⟩
                  · rw [heq1, heq2] at hne
                    exact absurd rfl hne
                  · subst hv1
                    rw [heq1] at hne
                    exact h.disj _ _ _ _ hm hold2 hne tid2 htid2
                  · subst hv2
                    rw [heq2] at hne
                    exact h.disj _ _ _ _ hold1 hm hne tid2 htid2
                  · exact h.disj _ _ _ _ hold1 hold2 hne tid2 htid2
                case link_cat =>
                  intro cid1 c1 h1 mid1 hmid1 m1 hm1
                  rcases lookupA_updateA_cases h1 with ⟨heqc, hvc, _⟩ | ⟨hnec, holdc⟩
                  · subst hvc
                    simp at hmid1
                  · rcases lookupA_updateA_cases hm1 with ⟨heqm, hvm, _⟩ | ⟨_, holdm⟩
                    · subst hvm
                      subst heqm
                      have hcontra := h.link_cat _ _ holdc mid1 hmid1 m hm
                      rw [hcat2] at hcontra
                      exact hcontra
                    · exact h.link_cat _ _ holdc mid1 hmid1 m1 holdm
                case link_mission =>
                  intro mid1 m1 h1 hfalse cid1 hcid1
                  rcases lookupA_updateA_cases h1 with ⟨_, hv1, _⟩ | ⟨hnem, holdm⟩
                  · subst hv1
                    simp at hfalse
                  · obtain ⟨c1, hc1, hmc1⟩ := h.link_mission _ _ holdm hfalse cid1 hcid1
                    by_cases hx : cid1 = cid2
                    · subst hx
                      rw [hc2] at hc1
                      cases hc1
                      rw [hc2mid] at hmc1
                      have : mid = mid1 := Option.some_inj.mp hmc1
                      exact absurd this.symm hnem
                    · exact ⟨c1, by rw [lookupA_updateA_ne _ _ _ hx]; exact hc1, hmc1⟩
                case cat_mid_bound =>
                  intro cid1 c1 h1 mid1 hmid1
                  rcases lookupA_updateA_cases h1 with ⟨_, hv, _⟩ | ⟨_, hold⟩
                  · subst hv
                    simp at hmid1
                  · exact h.cat_mid_bound _ _ hold mid1 hmid1

theorem wf_delete_mission {s : Store} (h : WF s) (mid : Int) :
    WF (delete_mission mid s).2 := by
  unfold delete_mission
  rw [get_mission_eq h]
  cases hm : lookupA s.missions mid with
  | none => exact h
  | some m =>
    dsimp only
    split
    · exact h
    · dsimp only
      have hfold : ∀ tid1, tid1 ∉ m.targetIds →
          lookupA (m.targetIds.foldl (fun ts tid2 => eraseA ts tid2) s.targets) tid1 =
            lookupA s.targets tid1 := by
        intro tid1 hnot
        rw [lookupA_foldl_eraseA, if_neg hnot]
      constructor
      case cat_key => exact h.cat_key
      case cat_ctr => exact h.cat_ctr
      case mission_ctr => exact h.mission_ctr
      case target_ctr => exact h.target_ctr
      case cat_bound => exact h.cat_bound
      case cat_mid_bound => exact h.cat_mid_bound
      case missions_nodup =>
        dsimp only
        exact List.Nodup.sublist (eraseA_keys_sublist _ _) h.missions_nodup
      case mission_key =>
        intro mid1 m1 h1
        exact h.mission_key _ _ (lookupA_eraseA_cases h1).2
      case mission_bound =>
        intro mid1 m1 h1
        exact h.mission_bound _ _ (lookupA_eraseA_cases h1).2
      case target_key =>
        intro tid1 t1 h1
        exact h.target_key _ _ (lookupA_foldl_eraseA_cases h1).2
      case target_bound =>
        intro tid1 t1 h1
        exact h.target_bound _ _ (lookupA_foldl_eraseA_cases h1).2
      case resolve =>
        intro mid1 m1 h1 tid1 htid1
        obtain ⟨hne, hold⟩ := lookupA_eraseA_cases h1
        rw [hfold tid1 (h.disj _ _ _ _ hold hm hne tid1 htid1)]
        exact h.resolve _ _ hold tid1 htid1
      case conj =>
        intro mid1 m1 h1
        obtain ⟨hne, hold⟩ := lookupA_eraseA_cases h1
        have : conjTargets (m.targetIds.foldl (fun ts tid2 => eraseA ts tid2) s.targets)
            m1.targetIds = conjTargets s.targets m1.targetIds := by
          refine conjTargets_congr ?_
          intro tid1 htid1
          unfold flagOf
          rw [hfold tid1 (h.disj _ _ _ _ hold hm hne tid1 htid1)]
        rw [this]
        exact h.conj _ _ hold
      case disj =>
        intro mid1 m1 mid2 m2 h1 h2 hne tid1 htid1
        exact h.disj _ _ _ _ (lookupA_eraseA_cases h1).2 (lookupA_eraseA_cases h2).2
          hne tid1 htid1
      case link_cat =>
        intro cid1 c1 h1 mid1 hmid1 m1 hm1
        exact h.link_cat _ _ h1 mid1 hmid1 m1 (lookupA_eraseA_cases hm1).2
      case link_mission =>
        intro mid1 m1 h1 hfalse cid1 hcid1
        exact h.link_mission _ _ (lookupA_eraseA_cases h1).2 hfalse cid1 hcid1

theorem wf_erase_cat {s : Store} (h : WF s) (cid : Int)
    (hno : ∀ mid1 m1, lookupA s.missions mid1 = some m1 → m1.is_complete = false →
      m1.cat_id = some cid → False) :
    WF { s with cats := eraseA s.cats cid } := by
  constructor
  case missions_nodup => exact h.missions_nodup
  case mission_key => exact h.mission_key
  case target_key => exact h.target_key
  case cat_ctr => exact h.cat_ctr
  case mission_ctr => exact h.mission_ctr
  case target_ctr => exact h.target_ctr
  case mission_bound => exact h.mission_bound
  case target_bound => exact h.target_bound
  case resolve => exact h.resolve
  case conj => exact h.conj
  case disj => exact h.disj
  case cat_key =>
    intro cid1 c1 h1
    exact h.cat_key _ _ (lookupA_eraseA_cases h1).2
  case cat_bound =>
    intro cid1 c1 h1
    exact h.cat_bound _ _ (lookupA_eraseA_cases h1).2
  case link_cat =>
    intro cid1 c1 h1 mid1 hmid1 m1 hm1
    exact h.link_cat _ _ (lookupA_eraseA_cases h1).2 mid1 hmid1 m1 hm1
  case cat_mid_bound =>
    intro cid1 c1 h1 mid1 hmid1
    exact h.cat_mid_bound _ _ (lookupA_eraseA_cases h1).2 mid1 hmid1
  case link_mission =>
    intro mid1 m1 h1 hfalse cid1 hcid1
    obtain ⟨c1, hc1, hmc1⟩ := h.link_mission _ _ h1 hfalse cid1 hcid1
    by_cases hx : cid1 = cid
    · subst hx
      exact (hno mid1 m1 h1 hfalse hcid1).elim
    · exact ⟨c1, by rw [lookupA_eraseA_ne _ _ hx]; exact hc1, hmc1⟩

theorem wf_delete_cat {s : Store} (h : WF s) (cid : Int) :
    WF (delete_cat cid s).2 := by
  unfold delete_cat
  cases hc : lookupA s.cats cid with
  | none =>
    dsimp only
    refine wf_erase_cat h cid ?_
    intro mid1 m1 hm1 hfalse hcid
    obtain ⟨c1, hc1, _⟩ := h.link_mission _ _ hm1 hfalse cid hcid
    rw [hc] at hc1
    cases hc1
  | some c =>
    dsimp only
    cases hcm : c.mission_id with
    | none =>
      dsimp only
      refine wf_erase_cat h cid ?_
      intro mid1 m1 hm1 hfalse hcid
      obtain ⟨c1, hc1, hmc1⟩ := h.link_mission _ _ hm1 hfalse cid hcid
      rw [hc] at hc1
      cases hc1
      rw [hcm] at hmc1
      cases hmc1
    | some mid =>
      dsimp only
      rw [get_mission_eq h]
      cases hmm : lookupA s.missions mid with
      | none =>
        dsimp only
        refine wf_erase_cat h cid ?_
        intro mid1 m1 hm1 hfalse hcid
        obtain ⟨c1, hc1, hmc1⟩ := h.link_mission _ _ hm1 hfalse cid hcid
        rw [hc] at hc1
        cases hc1
        rw [hcm] at hmc1
        cases hmc1
        rw [hmm] at hm1
        cases hm1
      | some m =>
        dsimp only
        cases hmc : m.is_complete with
        | true =>
          rw [if_pos rfl]
          dsimp only
          refine wf_erase_cat h cid ?_
          intro mid1 m1 hm1 hfalse hcid
          obtain ⟨c1, hc1, hmc1⟩ := h.link_mission _ _ hm1 hfalse cid hcid
          rw [hc] at hc1
          cases hc1
          rw [hcm] at hmc1
          cases hmc1
          rw [hmm] at hm1
          cases hm1
          rw [hmc] at hfalse
          cases hfalse
        | false =>
          simp only [Bool.false_eq_true, if_false]
          exact h

/-- Every reachable store satisfies the inductive invariant. -/
theorem wf_reachable {s : Store} (h : Reachable s) : WF s := by
  induction h with
  | init => exact wf_init
  | createCat ci _ ih => exact wf_create_cat ih ci
  | updateSalary cid sal _ ih => exact wf_update_cat_salary ih cid sal
  | deleteCat cid _ ih => exact wf_delete_cat ih cid
  | createMission mi _ h1 h2 ih => exact wf_create_mission ih mi h1
  | getMission mid _ ih => exact wf_get_mission ih mid
  | getMissions skip limit _ ih => exact wf_get_missions ih skip limit
  | assignCat mid cid _ ih => exact wf_assign ih mid cid
  | updateNotes mid tid n _ ih => exact wf_update_target_notes ih mid tid n
  | markComplete mid tid _ ih => exact wf_mark_target_complete ih mid tid
  | deleteMission mid _ ih => exact wf_delete_mission ih mid

/-! ## Further laws used by the claim theorems -/

theorem lookupA_eq_of_mem {α : Type} {l : List (Int × α)} {k : Int} {v : α}
    (hnd : (l.map Prod.fst).Nodup) (h : (k, v) ∈ l) : lookupA l k = some v := by
  induction l with
  | nil => cases h
  | cons kv rest ih =>
    obtain ⟨k0, v0⟩ := kv
    simp only [List.map_cons, List.nodup_cons] at hnd
    rcases List.mem_cons.mp h with heq | hmem
    · have h1 : k = k0 := congrArg Prod.fst heq
      have h2 : v = v0 := congrArg Prod.snd heq
      subst h1
      subst h2
      rw [lookupA_cons, if_pos rfl]
    · rw [lookupA_cons]
      by_cases h0 : k0 = k
      · subst h0
        exact absurd (List.mem_map.mpr ⟨(k0, v), hmem, rfl⟩) hnd.1
      · rw [if_neg h0]
        exact ih hnd.2 hmem

theorem eraseA_of_lookup_none {α : Type} {l : List (Int × α)} {k : Int}
    (h : lookupA l k = none) : eraseA l k = l := by
  induction l with
  | nil => rfl
  | cons kv rest ih =>
    obtain ⟨k0, v0⟩ := kv
    rw [lookupA_cons] at h
    by_cases h0 : k0 = k
    · rw [if_pos h0] at h
      cases h
    · rw [if_neg h0] at h
      rw [eraseA_cons, if_neg h0, ih h]

/-! ## Concrete fixtures used by witnesses and counterexamples -/

def tAlice : TargetCreate := ⟨"Alice", "FR", none, false⟩

def tBob : TargetCreate := ⟨"Bob", "DE", none, false⟩

def miOne : MissionCreate := ⟨false, [tAlice]⟩

def miTwo : MissionCreate := ⟨false, [tAlice, tBob]⟩

def catTom : CatCreate := ⟨"Tom", 2, "Sphynx", 100⟩

/-! ## C1 — the Mission completion flag is always the conjunction of its
Targets' flags -/

/-- Whole-store Bool statement of the completion-flag invariant: every stored
mission's target ids all resolve and its flag equals the conjunction of their
flags. -/
def missionFlagInvariant (s : Store) : Bool :=
  s.missions.all fun km =>
    (km.2.targetIds.all fun tid => (lookupA s.targets tid).isSome) &&
    (km.2.is_complete == conjTargets s.targets km.2.targetIds)

/-- C1: in every reachable store, every stored Mission's completion flag
equals the conjunction of the completion flags of all its owned Targets.
Since reachability is closed under every operation of the rule engine
(creation, note update, target completion, assignment, deletions and the
re-resolving reads), every operation preserves the equality and no code path
sets the flag by any other rule. -/
theorem mission_flag_always_conjunction {s : Store} (h : Reachable s) :
    missionFlagInvariant s = true := by
  have hwf := wf_reachable h
  unfold missionFlagInvariant
  rw [List.all_eq_true]
  intro km hkm
  obtain ⟨k, m⟩ := km
  have hl : lookupA s.missions k = some m := lookupA_eq_of_mem hwf.missions_nodup hkm
  rw [Bool.and_eq_true]
  constructor
  · rw [List.all_eq_true]
    intro tid htid
    exact hwf.resolve _ _ hl tid htid
  · rw [beq_iff_eq]
    exact hwf.conj _ _ hl

def sClaim1 : Store := (create_mission miTwo initStore).2

/-- Witness for C1: the invariant evaluated at a concrete reachable store. -/
theorem mission_flag_always_conjunction_witness :
    missionFlagInvariant sClaim1 = true :=
  mission_flag_always_conjunction
    (Reachable.createMission miTwo Reachable.init (by decide) (by decide))

/-! ## C2 — the Cat↔Mission symmetric link -/

/-- The store that refutes the claim as stated: a single-target mission is
created and completed while unassigned, a cat is then assigned to the already
complete mission (no rule forbids that), and the mission is deleted —
deletion of a complete mission is allowed even though the cat still points at
it.  The cat's mission reference survives, dangling. -/
def sClaim2bad : Store :=
  (delete_mission 1 (assign_cat_to_mission 1 1 (create_cat catTom
    (mark_target_complete 1 1 (create_mission miOne initStore).2).2).2).2).2

/-- C2 counterexample: `sClaim2bad` is reachable, cat 1's mission reference is
set to mission 1, yet mission 1 is no longer in the store — the referenced
Mission need not exist, so the symmetric-link invariant as claimed is false. -/
theorem symmetric_link_violated :
    Reachable sClaim2bad ∧
      (lookupA sClaim2bad.cats 1).map Cat.mission_id = some (some 1) ∧
      lookupA sClaim2bad.missions 1 = none :=
  ⟨Reachable.deleteMission 1 (Reachable.assignCat 1 1 (Reachable.createCat catTom
      (Reachable.markComplete 1 1
        (Reachable.createMission miOne Reachable.init (by decide) (by decide))))),
    by decide, by decide⟩

/-- C2 amended: in every reachable store, whenever a Cat's mission reference
is set **and the referenced Mission still exists**, that Mission's cat
reference equals the Cat's id.  (Existence itself can fail: a completed,
assigned-after-completion Mission may be deleted while the Cat still points
at it, as the counterexample shows.) -/
theorem cat_link_agrees_when_mission_exists {s : Store} (h : Reachable s) :
    ∀ cid c mid m, lookupA s.cats cid = some c → c.mission_id = some mid →
      lookupA s.missions mid = some m → m.cat_id = some c.id := by
  intro cid c mid m hc hcm hm
  have hwf := wf_reachable h
  rw [hwf.cat_key _ _ hc]
  exact hwf.link_cat _ _ hc mid hcm m hm

def sClaim2w : Store :=
  (assign_cat_to_mission 1 1 (create_cat catTom (create_mission miOne initStore).2).2).2

/-- Witness for the amended C2 at a concrete assigned pair. -/
theorem cat_link_agrees_when_mission_exists_witness :
    (Mission.mk 1 [1] false (some 1)).cat_id =
      some (Cat.mk 1 "Tom" 2 "Sphynx" 100 (some 1)).id :=
  cat_link_agrees_when_mission_exists
    (Reachable.assignCat 1 1 (Reachable.createCat catTom
      (Reachable.createMission miOne Reachable.init (by decide) (by decide))))
    1 (Cat.mk 1 "Tom" 2 "Sphynx" 100 (some 1)) 1 (Mission.mk 1 [1] false (some 1))
    (by decide) rfl (by decide)

/-! ## C10 — client completion flags are ignored at mission creation -/

/-- C10: for every creation payload with 1–3 target specifications — even one
whose mission-level or target-level `is_complete` fields are `true` — the
mission is stored with flag `false` and each of its stored targets has flag
`false`. -/
theorem create_mission_ignores_client_flags {s : Store} (h : Reachable s)
    (mi : MissionCreate) (_h1 : 1 ≤ mi.targets.length) (_h3 : mi.targets.length ≤ 3) :
    (create_mission mi s).1.is_complete = false ∧
    lookupA (create_mission mi s).2.missions (create_mission mi s).1.id =
      some (create_mission mi s).1 ∧
    ∀ tid ∈ (create_mission mi s).1.targetIds,
      ∃ t, lookupA (create_mission mi s).2.targets tid = some t ∧
        t.is_complete = false := by
  have hwf := wf_reachable h
  unfold create_mission
  rw [allocTargets_eq]
  dsimp only
  refine ⟨rfl, ?_, ?_⟩
  · rw [lookupA_snoc]
    cases hl : lookupA s.missions s.next_mission_id with
    | none => rw [if_pos rfl]
    | some m0 =>
      have := hwf.mission_bound _ _ hl
      omega
  · intro tid htid
    have hkb := freshTargets_keys_bound htid
    have hnone : lookupA s.targets tid = none := by
      cases hl : lookupA s.targets tid with
      | none => rfl
      | some t0 =>
        have := hwf.target_bound _ _ hl
        omega
    rw [lookupA_append, hnone]
    obtain ⟨t0, ht0⟩ := Option.isSome_iff_exists.mp ((lookupA_isSome_iff _ _).mpr htid)
    rw [ht0]
    exact ⟨t0, rfl, (freshTargets_mem (lookupA_eq_some_mem ht0)).2.1⟩

/-- Witness for C10: a payload whose completion flags are all `true` still
stores an incomplete mission with incomplete targets. -/
theorem create_mission_ignores_client_flags_witness :
    (create_mission ⟨true, [⟨"A", "X", none, true⟩, ⟨"B", "Y", none, true⟩]⟩
        initStore).1.is_complete = false ∧
    lookupA (create_mission ⟨true, [⟨"A", "X", none, true⟩, ⟨"B", "Y", none, true⟩]⟩
        initStore).2.missions
      (create_mission ⟨true, [⟨"A", "X", none, true⟩, ⟨"B", "Y", none, true⟩]⟩
        initStore).1.id =
      some (create_mission ⟨true, [⟨"A", "X", none, true⟩, ⟨"B", "Y", none, true⟩]⟩
        initStore).1 ∧
    ∀ tid ∈ (create_mission ⟨true, [⟨"A", "X", none, true⟩, ⟨"B", "Y", none, true⟩]⟩
        initStore).1.targetIds,
      ∃ t, lookupA (create_mission ⟨true, [⟨"A", "X", none, true⟩, ⟨"B", "Y", none, true⟩]⟩
          initStore).2.targets tid = some t ∧ t.is_complete = false :=
  create_mission_ignores_client_flags Reachable.init _ (by decide) (by decide)

/-! ## C3 — completing the last incomplete target of a mission -/

/-- C3: in a reachable store, successfully marking complete the last still
incomplete Target of a Mission yields the completed target, sets the
Mission's completion flag, leaves the Mission's own cat reference untouched
(historical record), and — when a cat reference was set — nulls that Cat's
mission reference. -/
theorem completing_last_target_frees_cat {s : Store} (h : Reachable s)
    (mid tid : Int) {m : Mission} {t : Target}
    (hm : lookupA s.missions mid = some m)
    (hmc : m.is_complete = false)
    (ht : lookupA s.targets tid = some t)
    (htm : tid ∈ m.targetIds)
    (htc : t.is_complete = false)
    (hrest : ∀ tid2 ∈ m.targetIds, tid2 ≠ tid →
      ∀ t2, lookupA s.targets tid2 = some t2 → t2.is_complete = true) :
    (mark_target_complete mid tid s).1 = Except.ok ({ t with is_complete := true }) ∧
    ∃ m', lookupA (mark_target_complete mid tid s).2.missions mid = some m' ∧
      m'.is_complete = true ∧ m'.cat_id = m.cat_id ∧
      ∀ cid, m.cat_id = some cid →
        ∃ c', lookupA (mark_target_complete mid tid s).2.cats cid = some c' ∧
          c'.mission_id = none := by
  have hwf := wf_reachable h
  have hconj : conjTargets (updateA s.targets tid ({ t with is_complete := true }))
      m.targetIds = true := by
    unfold conjTargets
    rw [List.all_eq_true]
    intro tid2 htid2
    by_cases hx : tid2 = tid
    · subst hx
      unfold flagOf
      rw [lookupA_updateA_self, ht]
      rfl
    · unfold flagOf
      rw [lookupA_updateA_ne _ _ _ hx]
      obtain ⟨t2, ht2⟩ := Option.isSome_iff_exists.mp (hwf.resolve _ _ hm tid2 htid2)
      rw [ht2]
      exact hrest tid2 htid2 hx t2 ht2
  unfold mark_target_complete
  rw [get_mission_eq hwf, hm]
  dsimp only
  rw [hmc]
  simp only [Bool.false_eq_true, if_false]
  rw [ht]
  dsimp only
  rw [if_pos (by simpa using htm)]
  rw [htc]
  simp only [Bool.false_eq_true, if_false]
  rw [if_pos hconj]
  refine ⟨rfl, ?_⟩
  cases hcat : m.cat_id with
  | none =>
    refine ⟨⟨m.id, m.targetIds, true, none⟩, ?_, rfl, rfl, ?_⟩
    · dsimp only
      rw [lookupA_updateA_self, hm]
      rfl
    · intro cid hcid
      cases hcid
  | some cid2 =>
    obtain ⟨c2, hc2, hc2mid⟩ := hwf.link_mission _ _ hm hmc cid2 hcat
    have hpos := (hwf.cat_bound _ _ hc2).1
    dsimp only
    rw [if_neg (by omega)]
    rw [hc2]
    dsimp only
    refine ⟨⟨m.id, m.targetIds, true, some cid2⟩, ?_, rfl, rfl, ?_⟩
    · rw [lookupA_updateA_self, hm]
      rfl
    · intro cid hcid
      have : cid2 = cid := Option.some_inj.mp hcid
      subst this
      refine ⟨{ c2 with mission_id := none }, ?_, rfl⟩
      rw [lookupA_updateA_self, hc2]
      rfl

def sClaim3 : Store :=
  (assign_cat_to_mission 1 1 (create_cat catTom (create_mission miOne initStore).2).2).2

/-- Witness for C3 at a concrete assigned single-target mission. -/
theorem completing_last_target_frees_cat_witness :
    (mark_target_complete 1 1 sClaim3).1 =
      Except.ok ({ Target.mk 1 "Alice" "FR" none false with is_complete := true }) ∧
    ∃ m', lookupA (mark_target_complete 1 1 sClaim3).2.missions 1 = some m' ∧
      m'.is_complete = true ∧ m'.cat_id = (Mission.mk 1 [1] false (some 1)).cat_id ∧
      ∀ cid, (Mission.mk 1 [1] false (some 1)).cat_id = some cid →
        ∃ c', lookupA (mark_target_complete 1 1 sClaim3).2.cats cid = some c' ∧
          c'.mission_id = none :=
  completing_last_target_frees_cat
    (Reachable.assignCat 1 1 (Reachable.createCat catTom
      (Reachable.createMission miOne Reachable.init (by decide) (by decide))))
    1 1 (by decide) rfl (by decide) (by decide) rfl
    (by
      intro tid2 h2 hne t2 _
      have : tid2 = 1 := by simpa using h2
      exact absurd this hne)

/-! ## C4 — idempotence of repeated target completion -/

def sClaim4bad : Store := (create_mission miOne initStore).2

/-- C4 counterexample: completing the single target of a mission succeeds,
but the second mark-complete of the same target fails with 400 ("mission is
already complete") instead of returning the same state — the claimed
idempotence does not extend to the last-incomplete-target case. -/
theorem second_complete_after_last_fails :
    (mark_target_complete 1 1 sClaim4bad).1 =
      Except.ok (Target.mk 1 "Alice" "FR" none true) ∧
    (mark_target_complete 1 1 (mark_target_complete 1 1 sClaim4bad).2).1 =
      Except.error ErrCode.badRequest400 := ⟨rfl, rfl⟩

/-- The idempotent branch of `mark_target_complete` in isolation: on a
well-formed store, completing an already complete target of a not-yet
complete mission returns the target and the unchanged store. -/
theorem mark_complete_idem {s1 : Store} (hwf1 : WF s1) {mid tid : Int}
    {m1 : Mission} {t : Target}
    (hm1 : lookupA s1.missions mid = some m1) (hmc1 : m1.is_complete = false)
    (ht1 : lookupA s1.targets tid = some t) (htm : tid ∈ m1.targetIds)
    (htc : t.is_complete = true) :
    mark_target_complete mid tid s1 = (Except.ok t, s1) := by
  unfold mark_target_complete
  rw [get_mission_eq hwf1, hm1]
  dsimp only
  rw [hmc1]
  simp only [Bool.false_eq_true, if_false]
  rw [ht1]
  dsimp only
  rw [if_pos (by simpa using htm), htc, if_pos rfl]

/-- C4 amended: in a reachable store, after a successful mark-complete whose
post-state still has the owning Mission incomplete (i.e. the completed
target was not the last one), a second mark-complete of the same Target
succeeds, returns the identical Target, and leaves the store unchanged.
When the first completion was of the last incomplete Target the second call
instead fails with 400 (see the counterexample). -/
theorem complete_idempotent_while_mission_incomplete {s : Store} (h : Reachable s)
    (mid tid : Int) {t : Target} {s1 : Store}
    (h1 : mark_target_complete mid tid s = (Except.ok t, s1))
    {m1 : Mission} (hm1 : lookupA s1.missions mid = some m1)
    (hmc1 : m1.is_complete = false) :
    mark_target_complete mid tid s1 = (Except.ok t, s1) := by
  have hwf := wf_reachable h
  have hs1 : Reachable s1 := by
    have hr := Reachable.markComplete mid tid h
    rw [h1] at hr
    exact hr
  have hwf1 := wf_reachable hs1
  unfold mark_target_complete at h1
  rw [get_mission_eq hwf] at h1
  cases hm : lookupA s.missions mid with
  | none =>
    rw [hm] at h1
    simp at h1
  | some m =>
    rw [hm] at h1
    dsimp only at h1
    cases hmc : m.is_complete with
    | true =>
      rw [hmc] at h1
      simp at h1
    | false =>
      rw [hmc] at h1
      simp only [Bool.false_eq_true, if_false] at h1
      cases hts : lookupA s.targets tid with
      | none =>
        rw [hts] at h1
        simp at h1
      | some t0 =>
        rw [hts] at h1
        dsimp only at h1
        cases hmem : m.targetIds.contains tid with
        | false =>
          rw [hmem] at h1
          simp at h1
        | true =>
          rw [hmem, if_pos rfl] at h1
          cases ht0c : t0.is_complete with
          | true =>
            rw [ht0c, if_pos rfl] at h1
            simp only [Prod.mk.injEq, Except.ok.injEq] at h1
            obtain ⟨rfl, rfl⟩ := h1
            have hmm1 : m1 = m := by
              rw [hm1] at hm
              exact Option.some_inj.mp hm
            subst hmm1
            exact mark_complete_idem hwf1 hm1 hmc1 hts (by simpa using hmem) ht0c
          | false =>
            rw [ht0c] at h1
            simp only [Bool.false_eq_true, if_false] at h1
            try dsimp only at h1
            cases hcj : conjTargets (updateA s.targets tid
                { id := t0.id, name := t0.name, country := t0.country,
                  notes := t0.notes, is_complete := true }) m.targetIds with
            | true =>
              rw [hcj, if_pos rfl] at h1
              exfalso
              simp only [Prod.mk.injEq, Except.ok.injEq] at h1
              obtain ⟨rfl, hs4⟩ := h1
              cases hcat : m.cat_id with
              | none =>
                rw [hcat] at hs4
                try dsimp only at hs4
                rw [← hs4] at hm1
                try dsimp only at hm1
                rw [lookupA_updateA_self, hm] at hm1
                simp only [Option.map_some'] at hm1
                rw [← Option.some_inj.mp hm1] at hmc1
                simp at hmc1
              | some cid2 =>
                rw [hcat] at hs4
                try dsimp only at hs4
                by_cases hz : cid2 = 0
                · rw [if_pos hz] at hs4
                  rw [← hs4] at hm1
                  try dsimp only at hm1
                  rw [lookupA_updateA_self, hm] at hm1
                  simp only [Option.map_some'] at hm1
                  rw [← Option.some_inj.mp hm1] at hmc1
                  simp at hmc1
                · rw [if_neg hz] at hs4
                  cases hc2 : lookupA s.cats cid2 with
                  | none =>
                    rw [hc2] at hs4
                    try dsimp only at hs4
                    rw [← hs4] at hm1
                    try dsimp only at hm1
                    rw [lookupA_updateA_self, hm] at hm1
                    simp only [Option.map_some'] at hm1
                    rw [← Option.some_inj.mp hm1] at hmc1
                    simp at hmc1
                  | some c2 =>
                    rw [hc2] at hs4
                    try dsimp only at hs4
                    rw [← hs4] at hm1
                    try dsimp only at hm1
                    rw [lookupA_updateA_self, hm] at hm1
                    simp only [Option.map_some'] at hm1
                    rw [← Option.some_inj.mp hm1] at hmc1
                    simp at hmc1
            | false =>
              rw [hcj] at h1
              simp only [Bool.false_eq_true, if_false] at h1
              simp only [Prod.mk.injEq, Except.ok.injEq] at h1
              obtain ⟨rfl, hs2⟩ := h1
              have hmm1 : m1 = m := by
                rw [← hs2] at hm1
                try dsimp only at hm1
                rw [hm1] at hm
                exact Option.some_inj.mp hm
              have ht1' : lookupA s1.targets tid =
                  some ⟨t0.id, t0.name, t0.country, t0.notes, true⟩ := by
                rw [← hs2]
                dsimp only
                rw [lookupA_updateA_self, hts]
                rfl
              refine mark_complete_idem hwf1 hm1 hmc1 ht1' ?_ rfl
              rw [hmm1]
              simpa using hmem

def sClaim4 : Store := (create_mission miTwo initStore).2

/-- Witness for the amended C4: with a second target still open, repeating a
mark-complete returns the identical target and state. -/
theorem complete_idempotent_while_mission_incomplete_witness :
    mark_target_complete 1 1 (mark_target_complete 1 1 sClaim4).2 =
      (Except.ok (Target.mk 1 "Alice" "FR" none true),
        (mark_target_complete 1 1 sClaim4).2) :=
  complete_idempotent_while_mission_incomplete
    (Reachable.createMission miTwo Reachable.init (by decide) (by decide))
    1 1 rfl rfl rfl

/-! ## C5 — assignment -/

theorem setLinks_post {s' : Store} (mid cid : Int) (m : Mission) (c : Cat)
    (hm' : (lookupA s'.missions mid).isSome = true)
    (hc' : (lookupA s'.cats cid).isSome = true) :
    ∃ m' s'', setLinks mid cid m c s' = (Except.ok m', s'') ∧
      m'.cat_id = some cid ∧ lookupA s''.missions mid = some m' ∧
      ∃ c', lookupA s''.cats cid = some c' ∧ c'.mission_id = some mid := by
  obtain ⟨m0, hm0⟩ := Option.isSome_iff_exists.mp hm'
  obtain ⟨c0, hc0⟩ := Option.isSome_iff_exists.mp hc'
  unfold setLinks
  refine ⟨{ m with cat_id := some cid }, _, rfl, rfl, ?_, ?_⟩
  · dsimp only
    rw [lookupA_updateA_self, hm0]
    rfl
  · dsimp only
    refine ⟨{ c with mission_id := some mid }, ?_, rfl⟩
    rw [lookupA_updateA_self, hc0]
    rfl

/-- C5: the outcome of Assign Cat, over any store.  404 iff the mission or
the cat is absent; 409 when the mission already carries a cat link; 409 when
the cat's current mission link resolves to a mission that is not complete;
in every other case — no link, dangling link, or link to a completed
mission — the assignment succeeds and sets both sides of the link together. -/
theorem assign_cat_characterization (s : Store) (mid cid : Int) :
    (((lookupA s.missions mid).isSome = false ∨ (lookupA s.cats cid).isSome = false) →
      (assign_cat_to_mission mid cid s).1 = Except.error ErrCode.notFound404) ∧
    (∀ m c, lookupA s.missions mid = some m → lookupA s.cats cid = some c →
      ((m.cat_id.isSome = true →
        (assign_cat_to_mission mid cid s).1 = Except.error ErrCode.conflict409) ∧
       (m.cat_id = none →
        ((∃ mid2 m2, c.mission_id = some mid2 ∧ lookupA s.missions mid2 = some m2 ∧
            m2.is_complete = false) →
          (assign_cat_to_mission mid cid s).1 = Except.error ErrCode.conflict409) ∧
        ((∀ mid2, c.mission_id = some mid2 → ∀ m2, lookupA s.missions mid2 = some m2 →
            m2.is_complete = true) →
          ∃ m' s', assign_cat_to_mission mid cid s = (Except.ok m', s') ∧
            m'.cat_id = some cid ∧ lookupA s'.missions mid = some m' ∧
            ∃ c', lookupA s'.cats cid = some c' ∧ c'.mission_id = some mid)))) := by
  unfold assign_cat_to_mission
  unfold get_mission
  cases hm : lookupA s.missions mid with
  | none =>
    dsimp only
    constructor
    · intro _
      rfl
    · intro m c hm' _
      cases hm'
  | some m =>
    dsimp only
    cases hc : lookupA s.cats cid with
    | none =>
      dsimp only
      constructor
      · intro _
        rfl
      · intro m0 c0 _ hc'
        cases hc'
    | some c =>
      dsimp only
      constructor
      · intro habs
        rcases habs with hx | hx
        · simp at hx
        · simp at hx
      · intro m0 c0 hm0 hc0
        cases hm0
        cases hc0
        refine ⟨?_, ?_⟩
        · intro hsome
          rw [if_pos hsome]
        · intro hnonecat
          rw [if_neg (by simp [hnonecat])]
          cases hcm : c.mission_id with
          | none =>
            dsimp only
            constructor
            · rintro ⟨mid2, m2, hceq, _, _⟩
              cases hceq
            · intro _
              refine setLinks_post mid cid _ c ?_ ?_
              · dsimp only
                rw [lookupA_updateA_self, hm]
                rfl
              · dsimp only
                rw [hc]
                rfl
          | some mid2 =>
            dsimp only
            by_cases hx : mid2 = mid
            · subst hx
              have hlook : lookupA (updateA s.missions mid2
                  ({ m with targetIds := refreshTargets s.targets m.targetIds })) mid2 =
                  some ({ m with targetIds := refreshTargets s.targets m.targetIds }) := by
                rw [lookupA_updateA_self, hm]
                rfl
              rw [hlook]
              dsimp only
              cases hic : m.is_complete with
              | false =>
                rw [if_neg (fun hh => Bool.noConfusion hh)]
                constructor
                · intro _
                  rfl
                · intro hall
                  have hcontra := hall mid2 rfl m hm
                  rw [hic] at hcontra
                  simp at hcontra
              | true =>
                rw [if_pos rfl]
                constructor
                · rintro ⟨mid2', m2, hceq, hlk, hfal⟩
                  cases hceq
                  rw [hm] at hlk
                  cases hlk
                  rw [hic] at hfal
                  cases hfal
                · intro _
                  refine setLinks_post mid2 cid _ c ?_ ?_
                  · dsimp only
                    rw [lookupA_updateA_self, lookupA_updateA_self, hm]
                    rfl
                  · dsimp only
                    rw [hc]
                    rfl
            · have hlook : lookupA (updateA s.missions mid
                  ({ m with targetIds := refreshTargets s.targets m.targetIds })) mid2 =
                  lookupA s.missions mid2 := lookupA_updateA_ne _ _ _ hx
              rw [hlook]
              cases ham : lookupA s.missions mid2 with
              | none =>
                dsimp only
                constructor
                · rintro ⟨mid2', m2, hceq, hlk, _⟩
                  cases hceq
                  rw [ham] at hlk
                  cases hlk
                · intro _
                  refine setLinks_post mid cid _ c ?_ ?_
                  · dsimp only
                    rw [lookupA_updateA_self, hm]
                    rfl
                  · dsimp only
                    rw [hc]
                    rfl
              | some am =>
                dsimp only
                cases hamc : am.is_complete with
                | false =>
                  simp only [Bool.false_eq_true, if_false]
                  constructor
                  · intro _
                    trivial
                  · intro hall
                    have hcontra := hall mid2 rfl am ham
                    rw [hamc] at hcontra
                    simp at hcontra
                | true =>
                  rw [if_pos rfl]
                  constructor
                  · rintro ⟨mid2', m2, hceq, hlk, hfal⟩
                    cases hceq
                    rw [ham] at hlk
                    cases hlk
                    rw [hamc] at hfal
                    cases hfal
                  · intro _
                    refine setLinks_post mid cid _ c ?_ ?_
                    · dsimp only
                      rw [lookupA_updateA_ne _ _ _ (fun hh => hx hh.symm),
                        lookupA_updateA_self, hm]
                      rfl
                    · dsimp only
                      rw [hc]
                      rfl

def sClaim5 : Store :=
  (create_mission miTwo (assign_cat_to_mission 1 1 (create_cat catTom
    (mark_target_complete 1 1 (create_mission miOne initStore).2).2).2).2).2

/-- Witness for C5: a cat whose only link is to a completed mission is
assigned to a fresh mission, and both sides of the new link are set. -/
theorem assign_cat_characterization_witness :
    ∃ m' s', assign_cat_to_mission 2 1 sClaim5 = (Except.ok m', s') ∧
      m'.cat_id = some 1 ∧ lookupA s'.missions 2 = some m' ∧
      ∃ c', lookupA s'.cats 1 = some c' ∧ c'.mission_id = some 2 :=
  (((assign_cat_characterization sClaim5 2 1).2
      (Mission.mk 2 [2, 3] false none) (Cat.mk 1 "Tom" 2 "Sphynx" 100 (some 1))
      (by decide) (by decide)).2 rfl).2
    (by
      intro mid2 h2 m2 hm2
      have h1 : (1 : Int) = mid2 := Option.some_inj.mp h2
      subst h1
      have hv : lookupA sClaim5.missions 1 = some (Mission.mk 1 [1] true (some 1)) := by
        decide
      rw [hv] at hm2
      cases hm2
      rfl)

/-! ## C6 — cat creation: validator order vs duplicate check -/

def catDup : CatCreate := ⟨"Whiskers", 3, "Sphynx", 500⟩

def sClaim6 : Store := (create_cat catDup initStore).2

/-- C6 counterexample: with a duplicate (name, breed) already stored and a
validator fetch that does not list the breed, the endpoint returns 500 — the
rejected-breed path (the 400 raised inside the `try` block is swallowed by
the trailing generic handler and re-raised as 500) — not 409.  The Conflict
outcome does depend on the validator, because FastAPI resolves the
breed-validation dependency before the handler body reaches the duplicate
check. -/
theorem duplicate_with_rejected_breed_not_conflict :
    (create_spy_cat (FetchResult.ok []) catDup sClaim6).1 =
      Except.error ErrCode.internal500 ∧
    (create_spy_cat (FetchResult.ok []) catDup sClaim6).1 ≠
      Except.error ErrCode.conflict409 :=
  ⟨rfl, by
    intro hEq
    rw [show (create_spy_cat (FetchResult.ok []) catDup sClaim6).1 =
        Except.error ErrCode.internal500 from rfl] at hEq
    simp at hEq⟩

/-- C6 amended: breed validation runs strictly before the duplicate check.
When the validator fails its error is returned, the store unchanged,
regardless of whether the payload duplicates a stored cat; only when the
validator accepts is the duplicate check applied, yielding 409 on a
duplicate, and otherwise the cat is stored with no mission link. -/
theorem breed_validation_precedes_duplicate_check (fetch : FetchResult)
    (ci : CatCreate) (s : Store) :
    (∀ e, validate_cat_breed_from_payload fetch ci = Except.error e →
      create_spy_cat fetch ci s = (Except.error e, s)) ∧
    (validate_cat_breed_from_payload fetch ci = Except.ok ci →
      ((s.cats.any (fun kc => kc.2.name == ci.name && kc.2.breed == ci.breed) = true →
        create_spy_cat fetch ci s = (Except.error ErrCode.conflict409, s)) ∧
       (s.cats.any (fun kc => kc.2.name == ci.name && kc.2.breed == ci.breed) = false →
        ∃ cNew, create_spy_cat fetch ci s =
            (Except.ok cNew,
              { s with cats := s.cats ++ [(s.next_cat_id, cNew)],
                       next_cat_id := s.next_cat_id + 1 }) ∧
          cNew.mission_id = none ∧ cNew.name = ci.name ∧ cNew.breed = ci.breed))) := by
  constructor
  · intro e he
    unfold create_spy_cat
    rw [he]
  · intro hok
    unfold create_spy_cat
    rw [hok]
    unfold create_cat
    dsimp only
    constructor
    · intro hdup
      rw [if_pos hdup]
    · intro hnodup
      rw [if_neg (by simp [hnodup])]
      exact ⟨⟨s.next_cat_id, ci.name, ci.years_of_experience, ci.breed, ci.salary, none⟩,
        rfl, rfl, rfl, rfl⟩

/-- Witness for the amended C6: an accepted breed on a fresh store stores the
cat with no mission link. -/
theorem breed_validation_precedes_duplicate_check_witness :
    ∃ cNew, create_spy_cat (FetchResult.ok ["Sphynx"]) catDup initStore =
        (Except.ok cNew,
          { initStore with cats := initStore.cats ++ [(initStore.next_cat_id, cNew)],
                           next_cat_id := initStore.next_cat_id + 1 }) ∧
      cNew.mission_id = none ∧ cNew.name = catDup.name ∧ cNew.breed = catDup.breed := by
  have hc : (["Sphynx"].any fun b => b.toLower == catDup.breed.toLower) = true := by
    simp [catDup]
  have hval : validate_cat_breed_from_payload (FetchResult.ok ["Sphynx"]) catDup
      = Except.ok catDup := by
    unfold validate_cat_breed_from_payload
    dsimp only
    rw [if_pos hc]
  exact ((breed_validation_precedes_duplicate_check (FetchResult.ok ["Sphynx"]) catDup
      initStore).2 hval).2 (by decide)

/-! ## C7 — mission deletion -/

/-- C7: Delete Mission (endpoint) returns 404 on an absent mission with the
store unchanged; with the mission present it fails with 400 exactly when the
mission has a cat link whose cat exists and still points back while the
mission is not complete (store unchanged); otherwise it succeeds, removing
every owned target from the target table and then the mission record. -/
theorem delete_mission_characterization {s : Store} (h : Reachable s) (mid : Int) :
    (lookupA s.missions mid = none →
      delete_a_mission mid s = (Except.error ErrCode.notFound404, s)) ∧
    (∀ m, lookupA s.missions mid = some m →
      (((∃ cid c, m.cat_id = some cid ∧ lookupA s.cats cid = some c ∧
          c.mission_id = some mid ∧ m.is_complete = false) →
        delete_a_mission mid s = (Except.error ErrCode.badRequest400, s)) ∧
       ((∀ cid c, m.cat_id = some cid → lookupA s.cats cid = some c →
          c.mission_id = some mid → m.is_complete = true) →
        delete_a_mission mid s =
          (Except.ok (),
            { s with
                targets := m.targetIds.foldl (fun ts tid => eraseA ts tid) s.targets,
                missions := eraseA s.missions mid })))) := by
  have hwf := wf_reachable h
  unfold delete_a_mission delete_mission
  rw [get_mission_eq hwf]
  cases hm : lookupA s.missions mid with
  | none =>
    try dsimp only
    exact ⟨fun _ => rfl, fun m hm' => by cases hm'⟩
  | some m =>
    try dsimp only
    constructor
    · intro hnone
      cases hnone
    · intro m0 hm0
      cases hm0
      cases hcat : m.cat_id with
      | none =>
        try dsimp only
        constructor
        · rintro ⟨cid, c, hcid, _, _, _⟩
          cases hcid
        · intro _
          try dsimp only
          rw [hm]
          rfl
      | some cid =>
        try dsimp only
        cases hc : lookupA s.cats cid with
        | none =>
          try dsimp only
          constructor
          · rintro ⟨cid', c, hcid, hcl, _, _⟩
            cases hcid
            rw [hc] at hcl
            cases hcl
          · intro _
            try dsimp only
            rw [hm]
            rfl
        | some c =>
          try dsimp only
          cases hbeq : c.mission_id == some mid with
          | false =>
            try dsimp only
            constructor
            · rintro ⟨cid', c', hcid, hcl, hcm', _⟩
              cases hcid
              rw [hc] at hcl
              cases hcl
              rw [hcm'] at hbeq
              simp at hbeq
            · intro _
              try dsimp only
              rw [hm]
              rfl
          | true =>
            have heq : c.mission_id = some mid := by simpa using hbeq
            cases hmc : m.is_complete with
            | false =>
              try dsimp only
              constructor
              · intro _
                rfl
              · intro hall
                have hcontra := hall cid c rfl hc heq
                simp at hcontra
            | true =>
              try dsimp only
              constructor
              · rintro ⟨cid', c', _, _, _, hfalse⟩
                cases hfalse
              · intro _
                try dsimp only
                rw [hm]
                rfl

def sClaim7 : Store := (mark_target_complete 1 1 (create_mission miOne initStore).2).2

/-- Witness for C7: deleting a completed mission succeeds and removes its
target as well as the mission record. -/
theorem delete_mission_characterization_witness :
    delete_a_mission 1 sClaim7 =
      (Except.ok (),
        { sClaim7 with
            targets := (Mission.mk 1 [1] true none).targetIds.foldl
              (fun ts tid => eraseA ts tid) sClaim7.targets,
            missions := eraseA sClaim7.missions 1 }) :=
  ((delete_mission_characterization
      (Reachable.markComplete 1 1
        (Reachable.createMission miOne Reachable.init (by decide) (by decide)))
      1).2 (Mission.mk 1 [1] true none) (by decide)).2
    (by
      intro cid c hcid _ _
      simp at hcid)

/-! ## C8 — cat deletion -/

/-- C8: Delete Cat (endpoint) returns 404 on an absent id with the store
unchanged; with the cat present it fails with 400 exactly when the cat's
mission link is set and resolves to a stored mission whose completion flag
is false (store unchanged); in every other case — no link, link to a
completed mission, or link to an absent mission — the cat is removed and
nothing else changes. -/
theorem delete_cat_characterization {s : Store} (h : Reachable s) (cid : Int) :
    (lookupA s.cats cid = none →
      delete_spy_cat cid s = (Except.error ErrCode.notFound404, s)) ∧
    (∀ c, lookupA s.cats cid = some c →
      (((∃ mid m, c.mission_id = some mid ∧ lookupA s.missions mid = some m ∧
          m.is_complete = false) →
        delete_spy_cat cid s = (Except.error ErrCode.badRequest400, s)) ∧
       ((∀ mid m, c.mission_id = some mid → lookupA s.missions mid = some m →
          m.is_complete = true) →
        delete_spy_cat cid s = (Except.ok (), { s with cats := eraseA s.cats cid })))) := by
  have hwf := wf_reachable h
  unfold delete_spy_cat delete_cat
  cases hc : lookupA s.cats cid with
  | none =>
    try dsimp only
    constructor
    · intro _
      rw [eraseA_of_lookup_none hc, hc]
    · intro c hc'
      cases hc'
  | some c =>
    try dsimp only
    constructor
    · intro hnone
      cases hnone
    · intro c0 hc0
      cases hc0
      cases hcm : c.mission_id with
      | none =>
        try dsimp only
        constructor
        · rintro ⟨mid, m, hcid, _, _⟩
          cases hcid
        · intro _
          rw [hc]
      | some mid =>
        try dsimp only
        rw [get_mission_eq hwf]
        cases hmm : lookupA s.missions mid with
        | none =>
          try dsimp only
          constructor
          · rintro ⟨mid', m, hcid, hml, _⟩
            cases hcid
            rw [hmm] at hml
            cases hml
          · intro _
            rw [hc]
        | some m =>
          try dsimp only
          cases hmc : m.is_complete with
          | true =>
            try dsimp only
            constructor
            · rintro ⟨mid', m', hcid, hml, hfalse⟩
              cases hcid
              rw [hmm] at hml
              cases hml
              rw [hmc] at hfalse
              cases hfalse
            · intro _
              rw [if_pos rfl]
              try dsimp only
              rw [hc]
          | false =>
            try dsimp only
            simp only [Bool.false_eq_true, if_false]
            constructor
            · intro _
              trivial
            · intro hall
              have hcontra := hall mid m rfl hmm
              rw [hmc] at hcontra
              simp at hcontra

def sClaim8 : Store := (create_cat catTom initStore).2

/-- Witness for C8: deleting a cat with no mission link succeeds and removes
exactly that cat. -/
theorem delete_cat_characterization_witness :
    delete_spy_cat 1 sClaim8 =
      (Except.ok (), { sClaim8 with cats := eraseA sClaim8.cats 1 }) :=
  ((delete_cat_characterization (Reachable.createCat catTom Reachable.init) 1).2
    (Cat.mk 1 "Tom" 2 "Sphynx" 100 none) rfl).2
    (by
      intro mid m hcid _
      simp at hcid)

/-! ## C9 — target notes update -/

def sClaim9bad : Store :=
  (mark_target_complete 1 1 (create_mission miOne initStore).2).2

/-- C9 counterexample: on a reachable store whose mission 1 is complete, an
update-notes request naming a target id (99) that names no Target of the
mission fails with 400, not 404 — the mission-complete guard runs before the
target lookup, so "NotFound … including when the Mission is complete" is
false of the code. -/
theorem notes_on_absent_target_of_complete_mission :
    Reachable sClaim9bad ∧
    lookupA sClaim9bad.targets 99 = none ∧
    (update_target_notes 1 99 "x" sClaim9bad).1 = Except.error ErrCode.badRequest400 ∧
    (update_target_notes 1 99 "x" sClaim9bad).1 ≠ Except.error ErrCode.notFound404 :=
  ⟨Reachable.markComplete 1 1
      (Reachable.createMission miOne Reachable.init (by decide) (by decide)),
    by decide, rfl, by
      intro hEq
      rw [show (update_target_notes 1 99 "x" sClaim9bad).1 =
          Except.error ErrCode.badRequest400 from rfl] at hEq
      simp at hEq⟩

/-- C9 amended: update-notes checks, in order: mission existence (404), the
mission-complete freeze (400 — even when the target id names no target of
the mission), target existence within the mission (404), the
target-complete freeze (400); otherwise it replaces the target's notes text
outright and changes nothing else in the store. -/
theorem update_notes_characterization {s : Store} (h : Reachable s)
    (mid tid : Int) (n : String) :
    (lookupA s.missions mid = none →
      update_target_notes mid tid n s = (Except.error ErrCode.notFound404, s)) ∧
    (∀ m, lookupA s.missions mid = some m →
      ((m.is_complete = true →
        update_target_notes mid tid n s = (Except.error ErrCode.badRequest400, s)) ∧
       (m.is_complete = false →
        (((lookupA s.targets tid = none ∨ tid ∉ m.targetIds) →
          update_target_notes mid tid n s = (Except.error ErrCode.notFound404, s)) ∧
         (∀ t, lookupA s.targets tid = some t → tid ∈ m.targetIds →
          ((t.is_complete = true →
            update_target_notes mid tid n s =
              (Except.error ErrCode.badRequest400, s)) ∧
           (t.is_complete = false →
            update_target_notes mid tid n s =
              (Except.ok ({ t with notes := some n }),
                { s with targets :=
                    updateA s.targets tid ({ t with notes := some n }) })))))))) := by
  have hwf := wf_reachable h
  unfold update_target_notes
  rw [get_mission_eq hwf]
  cases hm : lookupA s.missions mid with
  | none =>
    try dsimp only
    exact ⟨fun _ => rfl, fun m hm' => by cases hm'⟩
  | some m =>
    try dsimp only
    constructor
    · intro hnone
      cases hnone
    · intro m0 hm0
      cases hm0
      constructor
      · intro hmc
        rw [hmc, if_pos rfl]
      · intro hmc
        rw [hmc]
        simp only [Bool.false_eq_true, if_false]
        cases ht : lookupA s.targets tid with
        | none =>
          try dsimp only
          constructor
          · intro _
            rfl
          · intro t ht'
            cases ht'
        | some t =>
          try dsimp only
          constructor
          · rintro (hx | hx)
            · cases hx
            · rw [if_neg (by simpa using hx)]
          · intro t0 ht0 htm
            cases ht0
            rw [if_pos (by simpa using htm)]
            constructor
            · intro htc
              rw [htc, if_pos rfl]
            · intro htc
              rw [htc]
              simp only [Bool.false_eq_true, if_false]

def sClaim9 : Store := (create_mission miOne initStore).2

def tAliceNoted : Target := { Target.mk 1 "Alice" "FR" none false with notes := some "observed" }

/-- Witness for the amended C9: replacing the notes of an open target of an
open mission stores exactly the new notes text. -/
theorem update_notes_characterization_witness :
    update_target_notes 1 1 "observed" sClaim9 =
      (Except.ok tAliceNoted,
        { sClaim9 with targets := updateA sClaim9.targets 1 tAliceNoted }) :=
  ((((update_notes_characterization
        (Reachable.createMission miOne Reachable.init (by decide) (by decide))
        1 1 "observed").2 (Mission.mk 1 [1] false none) (by decide)).2 rfl).2
      (Target.mk 1 "Alice" "FR" none false) (by decide) (by decide)).2 rfl

end SpyCat
